import Mathlib

/-!
# Verification of the sales-analytics pipeline core

This file gives a shallow embedding of the core of the
`sales-analytics-pipeline` repository (the CSV reader, the record cleaner,
the streaming aggregator and the finalization step, from
`src/pipeline/ingestion.py`, `src/pipeline/cleaning.py`,
`src/pipeline/transformation.py`, `src/pipeline/orchestrator.py` and
`src/utils/config.py`) and proves the specified properties about it.

Modelling conventions:
* Python numbers (`int` / `float`) are embedded as `ℚ`.  All numeric
  constants appearing in the source (`0.7`, `10`, `1000`, ...) are exact in
  `ℚ`, and every claim proved here concerns either exact equalities that in
  Python are performed by an identical sequence of float operations on both
  sides, or order comparisons against those constants.
* Python's dynamic typing inside the aggregator is embedded by the `PyVal`
  sum type; a record ("dict") field is an `Option PyVal`, where `none`
  models an absent key and `some .vNone` models a key holding `None`.
* A Python `dict` used as a keyed accumulator (`defaultdict`) is embedded
  as an insertion-ordered association list: updating an existing key keeps
  its position, a new key is appended at the end — exactly the iteration
  order of a (3.7+) Python dict.
* A raised exception that the source absorbs is embedded by returning the
  mutated-so-far state together with a `false` success flag.
-/

attribute [local semireducible] Rat.add Rat.mul Rat.sub Rat.inv Rat.ofScientific

/-- A dynamically typed Python value, restricted to the shapes that can
reach the pipeline core: `None`, a number (`int`/`float` as `ℚ`), a string,
or a `datetime` object. -/
inductive PyVal where
  | vNone : PyVal
  | vNum (q : ℚ) : PyVal
  | vStr (s : String) : PyVal
  | vDate (year month day hour minute second : ℕ) : PyVal
deriving DecidableEq, Repr

/-- Numeric view of a `PyVal`: `some q` exactly when the value is a Python
number, i.e. when `value + x`, `value > x` etc. would not raise. -/
def PyVal.asNum : PyVal → Option ℚ
  | .vNum q => some q
  | _ => none

/-- A parsed calendar timestamp (the result of `datetime.strptime`). -/
structure DateT where
  year : ℕ
  month : ℕ
  day : ℕ
  hour : ℕ
  minute : ℕ
  second : ℕ
deriving DecidableEq, Repr

/-- `datetime.strftime("%Y-%m")`: the zero-padded year and month used as the
monthly bucket key. -/
def monthKeyOf (d : DateT) : String :=
  let pad4 := fun (n : ℕ) =>
    if n < 10 then "000" ++ toString n
    else if n < 100 then "00" ++ toString n
    else if n < 1000 then "0" ++ toString n
    else toString n
  let pad2 := fun (n : ℕ) => if n < 10 then "0" ++ toString n else toString n
  pad4 d.year ++ "-" ++ pad2 d.month

/-- Digit value of an ASCII digit character. -/
def digitVal (c : Char) : ℕ := c.toNat - 48

/-- Python `str.strip()` on the character list: drop leading and trailing
whitespace. -/
def pyStripChars (cs : List Char) : List Char :=
  ((cs.dropWhile Char.isWhitespace).reverse.dropWhile Char.isWhitespace).reverse

/-- Python `str.strip()`. -/
def pyStrip (s : String) : String := String.mk (pyStripChars s.data)

/-- `startswith("-")`. -/
def startsWithDash (cs : List Char) : Bool := cs.head? == some '-'

/-- Python `str.lower()` (ASCII), character by character. -/
def pyLowerChars (cs : List Char) : List Char := cs.map Char.toLower

/-- Python `int(s)` on a digits-only string: fails on the empty string,
otherwise the decimal value.  (The inputs it receives here are the
digit-filtered remainders of `_clean_quantity`.) -/
def digitsToNat? (cs : List Char) : Option ℕ :=
  if cs.isEmpty ∨ ¬ cs.all Char.isDigit then none
  else some (cs.foldl (fun a c => a * 10 + digitVal c) 0)

/-- Python `str.split(sep)` on the character list: every occurrence of the
separator splits, neighbouring separators give empty segments, and the
result is never empty. -/
def splitOnChar (sep : Char) : List Char → List (List Char)
  | [] => [[]]
  | c :: rest =>
    let r := splitOnChar sep rest
    if c = sep then [] :: r
    else
      match r with
      | h :: t => (c :: h) :: t
      | [] => [[c]]

/-- Python `str.title()` on an (already lowercased) string: uppercase every
alphabetic character that does not follow an alphabetic character, keep the
rest.  `go` carries whether the previous character was alphabetic. -/
def pyTitleGo : Bool → List Char → List Char
  | _, [] => []
  | prevAlpha, c :: cs =>
    let c2 := if c.isAlpha then (if prevAlpha then c.toLower else c.toUpper) else c
    c2 :: pyTitleGo c.isAlpha cs

/-- Python `str.title()`. -/
def pyTitle (s : String) : String := String.mk (pyTitleGo false s.data)

/-- `REGION_MAP` from `DataCleaner` (`src/pipeline/cleaning.py`).  The keys
containing capitals are kept for fidelity; they can never match a
lowercased input. -/
def REGION_MAP : List (String × String) :=
  [("nort", "North"), ("north", "North"), ("nOrth", "North"),
   ("sout", "South"), ("south", "South"), ("sOuth", "South"),
   ("eas", "East"), ("east", "East"), ("eAst", "East"),
   ("wes", "West"), ("west", "West"), ("wEst", "West")]

/-- `PRODUCT_NAME_MAP` from `DataCleaner` (the duplicated `"4k led tv"` key
of the Python literal collapses to one entry, as in a Python dict). -/
def PRODUCT_NAME_MAP : List (String × String) :=
  [("laptop pro", "Laptop Pro 15"),
   ("smartfone x", "Smartphone X"),
   ("smart-phone x", "Smartphone X"),
   ("smartphone-x", "Smartphone X"),
   ("wirless headphones", "Wireless Headphones"),
   ("wireless headphones", "Wireless Headphones"),
   ("4k led tv", "4K LED TV"),
   ("4ktv", "4K LED TV"),
   ("blenderpro", "Blender Pro"),
   ("blender pro", "Blender Pro"),
   ("cofee maker elite", "Coffee Maker Elite"),
   ("coffee maker elite", "Coffee Maker Elite"),
   ("mens t-shirt (blue)", "Men\x27s T-shirt (Blue)"),
   ("t-shirt (blue)", "Men\x27s T-shirt (Blue)")]

/-- `CATEGORY_MAP` from `DataCleaner`. -/
def CATEGORY_MAP : List (String × String) :=
  [("electronics", "Electronics"),
   ("home appliance", "Home Appliance"),
   ("home appliances", "Home Appliance"),
   ("fashion", "Fashion"),
   ("clothing", "Fashion")]

/-- `DataCleaner._standardize_string`: non-strings and whitespace-only
strings give `None`; otherwise trim, lowercase, look the result up in the
canonical map, and fall back to `str.title()`. -/
def standardizeString (v : PyVal) (mapping : List (String × String)) : Option String :=
  match v with
  | .vStr s =>
    if (pyStripChars s.data).isEmpty then none
    else
      let clean := String.mk (pyLowerChars (pyStripChars s.data))
      match mapping.lookup clean with
      | some canon => some canon
      | none => some (pyTitle clean)
  | _ => none

/-- `DataCleaner._clean_quantity`.  A number is accepted iff strictly
positive and cast with `int(...)` (truncation toward zero, `Int.tdiv` of
numerator by denominator).  A string is rejected if, after `strip()`, it starts with
`-`; otherwise every non-digit character is removed and the remainder is
parsed as an integer, accepted iff strictly positive (an all-stripped
string fails `int("")` and gives `None`).  Anything else gives `None`. -/
def cleanQuantity (v : PyVal) : Option ℤ :=
  match v with
  | .vNum q => if 0 < q then some (q.num.tdiv q.den) else none
  | .vStr s =>
    if startsWithDash (pyStripChars s.data) then none
    else
      match digitsToNat? (s.data.filter Char.isDigit) with
      | some n => if 0 < n then some (n : ℤ) else none
      | none => none
  | _ => none

/-- Decimal-literal semantics of Python `float(str)`: optional surrounding
whitespace, optional sign, then `digits`, `digits.digits`, `.digits` or
`digits.`, with an optional decimal exponent.  (`inf`, `nan` and `_`
separators are not modelled; no claim involves them.)  `parseFrac` returns
numerator and digit count of a fraction part. -/
def parseDigitsAcc : ℕ → List Char → ℕ × ℕ × List Char
  | acc, c :: cs =>
    if c.isDigit then
      let r := parseDigitsAcc (acc * 10 + digitVal c) cs
      (r.1, r.2.1 + 1, r.2.2)
    else (acc, 0, c :: cs)
  | acc, [] => (acc, 0, [])

/-- Exponent part of a Python float literal: optional sign then at least
one digit, consuming the whole remainder. -/
def parseExpPart : List Char → Option ℤ
  | [] => none
  | cs =>
    let signed : ℤ × List Char :=
      match cs with
      | '-' :: r => (-1, r)
      | '+' :: r => (1, r)
      | r => (1, r)
    match signed.2 with
    | [] => none
    | ds =>
      let r := parseDigitsAcc 0 ds
      if r.2.2 = [] ∧ 0 < r.2.1 then some (signed.1 * r.1) else none

/-- Mantissa-and-exponent parse of the body of a Python float literal
(after sign removal): returns its exact rational value. -/
def parseFloatBody (cs : List Char) : Option ℚ :=
  let ip := parseDigitsAcc 0 cs
  let intPart : ℕ := ip.1
  let intLen : ℕ := ip.2.1
  let afterInt : List Char := ip.2.2
  let fracStep : Option (ℚ × List Char) :=
    match afterInt with
    | '.' :: r =>
      let fp := parseDigitsAcc 0 r
      if 0 < intLen ∨ 0 < fp.2.1 then
        some ((intPart : ℚ) + (fp.1 : ℚ) / ((10 : ℚ) ^ fp.2.1), fp.2.2)
      else none
    | r => if 0 < intLen then some ((intPart : ℚ), r) else none
  match fracStep with
  | none => none
  | some (mant, rest) =>
    match rest with
    | [] => some mant
    | 'e' :: r =>
      match parseExpPart r with
      | some e => some (mant * (10 : ℚ) ^ e)
      | none => none
    | 'E' :: r =>
      match parseExpPart r with
      | some e => some (mant * (10 : ℚ) ^ e)
      | none => none
    | _ => none

/-- Python `float(str)` on decimal literals. -/
def pyParseFloat (s : String) : Option ℚ :=
  match pyStripChars s.data with
  | '-' :: r => (parseFloatBody r).map (fun q => -q)
  | '+' :: r => parseFloatBody r
  | r => parseFloatBody r

/-- Python `float(value)` as used by `_clean_float` / `_clean_discount`:
numbers convert to themselves, strings are parsed, everything else raises
(`TypeError`/`ValueError`), which the source turns into `None`. -/
def pyFloatOf (v : PyVal) : Option ℚ :=
  match v with
  | .vNum q => some q
  | .vStr s => pyParseFloat s
  | _ => none

/-- `DataCleaner._clean_float`. -/
def cleanFloat (v : PyVal) : Option ℚ := pyFloatOf v

/-- `DataCleaner._clean_discount`: a float in the closed interval
`[0.0, 1.0]`, else `None`. -/
def cleanDiscount (v : PyVal) : Option ℚ :=
  match pyFloatOf v with
  | some d => if 0 ≤ d ∧ d ≤ 1 then some d else none
  | none => none

/-- One-or-two-digit numeric directive of `_strptime` (e.g. `%m` is the
regex `1[0-2]|0[1-9]|[1-9]`): consume two digits when their value satisfies
`validTwo`, else one digit satisfying `validOne`, else fail. -/
def parseNum2or1 (validTwo validOne : ℕ → Bool) :
    List Char → Option (ℕ × List Char)
  | [] => none
  | a :: rest1 =>
    if a.isDigit then
      match rest1 with
      | b :: rest2 =>
        if b.isDigit ∧ validTwo (10 * digitVal a + digitVal b) then
          some (10 * digitVal a + digitVal b, rest2)
        else if validOne (digitVal a) then some (digitVal a, rest1) else none
      | [] => if validOne (digitVal a) then some (digitVal a, []) else none
    else none

/-- `%Y`: exactly four digits. -/
def parseYear4 : List Char → Option (ℕ × List Char)
  | a :: b :: c :: d :: rest =>
    if a.isDigit ∧ b.isDigit ∧ c.isDigit ∧ d.isDigit then
      some (1000 * digitVal a + 100 * digitVal b + 10 * digitVal c + digitVal d, rest)
    else none
  | _ => none

/-- `%m`: regex `1[0-2]|0[1-9]|[1-9]`. -/
def parseMonth2 : List Char → Option (ℕ × List Char) :=
  parseNum2or1 (fun n => decide (1 ≤ n ∧ n ≤ 12)) (fun n => decide (1 ≤ n))

/-- `%d`: regex `3[01]|[12]\d|0[1-9]|[1-9]`. -/
def parseDay2 : List Char → Option (ℕ × List Char) :=
  parseNum2or1 (fun n => decide (1 ≤ n ∧ n ≤ 31)) (fun n => decide (1 ≤ n))

/-- `%H`: regex `2[0-3]|[0-1]\d|\d`. -/
def parseHour2 : List Char → Option (ℕ × List Char) :=
  parseNum2or1 (fun n => decide (n ≤ 23)) (fun _ => true)

/-- `%M` / `%S`: regex `[0-5]\d|\d`. -/
def parseMinSec : List Char → Option (ℕ × List Char) :=
  parseNum2or1 (fun n => decide (n ≤ 59)) (fun _ => true)

/-- `%b`: a case-insensitive three-letter English month abbreviation. -/
def parseMonthAbbr (cs : List Char) : Option (ℕ × List Char) :=
  match cs with
  | a :: b :: c :: rest =>
    let w := String.mk [a.toLower, b.toLower, c.toLower]
    match [("jan", 1), ("feb", 2), ("mar", 3), ("apr", 4), ("may", 5), ("jun", 6),
           ("jul", 7), ("aug", 8), ("sep", 9), ("oct", 10), ("nov", 11),
           ("dec", 12)].lookup w with
    | some m => some (m, rest)
    | none => none
  | _ => none

/-- A literal separator character of a format string. -/
def parseLit (c : Char) : List Char → Option (List Char)
  | x :: rest => if x = c then some rest else none
  | [] => none

/-- Day count per month, as validated by the `datetime` constructor. -/
def daysInMonth (y m : ℕ) : ℕ :=
  if m = 2 then (if y % 4 = 0 ∧ (y % 100 ≠ 0 ∨ y % 400 = 0) then 29 else 28)
  else if m = 4 ∨ m = 6 ∨ m = 9 ∨ m = 11 then 30
  else 31

/-- The `datetime(...)` construction at the end of `strptime`: rejects
year `0000` (below `MINYEAR`) and a day beyond the month's length. -/
def mkDateT (y m d hh mm ss : ℕ) : Option DateT :=
  if 1 ≤ y ∧ 1 ≤ d ∧ d ≤ daysInMonth y m then some ⟨y, m, d, hh, mm, ss⟩ else none

/-- `strptime(s, "%Y-%m-%d %H:%M:%S")`. -/
def parseFmtYmdHMS (cs : List Char) : Option DateT := do
  let (y, cs) ← parseYear4 cs
  let cs ← parseLit '-' cs
  let (m, cs) ← parseMonth2 cs
  let cs ← parseLit '-' cs
  let (d, cs) ← parseDay2 cs
  let cs ← parseLit ' ' cs
  let (hh, cs) ← parseHour2 cs
  let cs ← parseLit ':' cs
  let (mm, cs) ← parseMinSec cs
  let cs ← parseLit ':' cs
  let (ss, cs) ← parseMinSec cs
  if cs = [] then mkDateT y m d hh mm ss else none

/-- `strptime(s, "%Y/%m/%d")`. -/
def parseFmtYsmd (cs : List Char) : Option DateT := do
  let (y, cs) ← parseYear4 cs
  let cs ← parseLit '/' cs
  let (m, cs) ← parseMonth2 cs
  let cs ← parseLit '/' cs
  let (d, cs) ← parseDay2 cs
  if cs = [] then mkDateT y m d 0 0 0 else none

/-- `strptime(s, "%Y-%m-%d")`. -/
def parseFmtYmd (cs : List Char) : Option DateT := do
  let (y, cs) ← parseYear4 cs
  let cs ← parseLit '-' cs
  let (m, cs) ← parseMonth2 cs
  let cs ← parseLit '-' cs
  let (d, cs) ← parseDay2 cs
  if cs = [] then mkDateT y m d 0 0 0 else none

/-- `strptime(s, "%d-%b-%Y")`. -/
def parseFmtDbY (cs : List Char) : Option DateT := do
  let (d, cs) ← parseDay2 cs
  let cs ← parseLit '-' cs
  let (m, cs) ← parseMonthAbbr cs
  let cs ← parseLit '-' cs
  let (y, cs) ← parseYear4 cs
  if cs = [] then mkDateT y m d 0 0 0 else none

/-- `strptime(s, "%m/%d/%Y")`. -/
def parseFmtMdY (cs : List Char) : Option DateT := do
  let (m, cs) ← parseMonth2 cs
  let cs ← parseLit '/' cs
  let (d, cs) ← parseDay2 cs
  let cs ← parseLit '/' cs
  let (y, cs) ← parseYear4 cs
  if cs = [] then mkDateT y m d 0 0 0 else none

/-- `strptime(s, "%d/%m/%Y")`. -/
def parseFmtDmY (cs : List Char) : Option DateT := do
  let (d, cs) ← parseDay2 cs
  let cs ← parseLit '/' cs
  let (m, cs) ← parseMonth2 cs
  let cs ← parseLit '/' cs
  let (y, cs) ← parseYear4 cs
  if cs = [] then mkDateT y m d 0 0 0 else none

/-- `DataCleaner._clean_date`: falsy or non-string input gives `None`;
otherwise the stripped string is tried against the six formats in source
order, stopping at the first success. -/
def cleanDate (v : PyVal) : Option DateT :=
  match v with
  | .vStr s =>
    if s = "" then none
    else
      let cs := pyStripChars s.data
      (((((parseFmtYmdHMS cs).or (parseFmtYsmd cs)).or (parseFmtYmd cs)).or
        (parseFmtDbY cs)).or (parseFmtMdY cs)).or (parseFmtDmY cs)
  | _ => none

/-- `DataCleaner._clean_email`: falsy / non-string / blank gives the
`"anonymous"` sentinel; otherwise trim + lowercase, and keep the result iff
it contains `@` and the part after the last `@` contains a dot. -/
def cleanEmail (v : PyVal) : String :=
  match v with
  | .vStr s =>
    if (pyStripChars s.data).isEmpty then "anonymous"
    else
      let email := pyLowerChars (pyStripChars s.data)
      if email.contains '@' ∧ ((splitOnChar '@' email).getLastD []).contains '.' then
        String.mk email
      else "anonymous"
  | _ => "anonymous"

/-- A raw CSV row as handed to `DataCleaner.clean_record`: a dict whose
relevant fields may be absent (`none`) or hold any value.  `order_id` and
unrecognized extra columns are carried through the cleaner untouched and
never read by the aggregator, so they are not modelled. -/
structure RawRecord where
  product_name : Option PyVal
  category : Option PyVal
  region : Option PyVal
  quantity : Option PyVal
  unit_price : Option PyVal
  discount_percent : Option PyVal
  sale_date : Option PyVal
  customer_email : Option PyVal
deriving DecidableEq, Repr

/-- The record emitted by `DataCleaner.clean_record` when the row is not
dropped: the three string fields as standardized (possibly `None`), the
four validated fields non-null, the email (with sentinel), and the derived
`revenue`. -/
structure CleanedRecord where
  product_name : Option String
  category : Option String
  region : Option String
  quantity : ℤ
  unit_price : ℚ
  discount_percent : ℚ
  sale_date : DateT
  customer_email : String
  revenue : ℚ
deriving DecidableEq, Repr

/-- `dict.get(field)`: `None` both for a missing key and a `None` value. -/
def getField (f : Option PyVal) : PyVal := f.getD .vNone

/-- `DataCleaner.clean_record`: standardize the three string fields, clean
the four validated fields, clean the email, drop the row if any validated
field resolved to null, otherwise emit the record with
`revenue = quantity * unit_price * (1 - discount_percent)`. -/
def cleanRecord (r : RawRecord) : Option CleanedRecord :=
  let pn := standardizeString (getField r.product_name) PRODUCT_NAME_MAP
  let cat := standardizeString (getField r.category) CATEGORY_MAP
  let reg := standardizeString (getField r.region) REGION_MAP
  let em := cleanEmail (getField r.customer_email)
  match cleanQuantity (getField r.quantity), cleanFloat (getField r.unit_price),
        cleanDiscount (getField r.discount_percent), cleanDate (getField r.sale_date) with
  | some q, some p, some disc, some dt =>
    some ⟨pn, cat, reg, q, p, disc, dt, em, (q : ℚ) * p * (1 - disc)⟩
  | _, _, _, _ => none

/-- A record as seen by `DataAggregator` (a Python dict): each field is
absent (`none`) or holds a dynamic value. -/
structure AggRecord where
  quantity : Option PyVal
  unit_price : Option PyVal
  discount_percent : Option PyVal
  sale_date : Option PyVal
  revenue : Option PyVal
  product_name : Option PyVal
  region : Option PyVal
  category : Option PyVal
deriving DecidableEq, Repr

/-- A cleaned record, as the dict the aggregator receives. -/
def CleanedRecord.toAgg (c : CleanedRecord) : AggRecord :=
  let strOf : Option String → PyVal := fun o =>
    match o with
    | some s => .vStr s
    | none => .vNone
  ⟨some (.vNum (c.quantity : ℚ)), some (.vNum c.unit_price),
   some (.vNum c.discount_percent),
   some (.vDate c.sale_date.year c.sale_date.month c.sale_date.day
     c.sale_date.hour c.sale_date.minute c.sale_date.second),
   some (.vNum c.revenue), some (strOf c.product_name), some (strOf c.region),
   some (strOf c.category)⟩

/-- One `monthly_sales` bucket (`_reset_aggregations`). -/
structure MonthlyData where
  revenue : ℚ
  quantity : ℚ
  total_discount : ℚ
  num_transactions : ℕ
deriving DecidableEq, Repr

/-- One `product_sales` / `region_sales` bucket. -/
structure PairData where
  revenue : ℚ
  quantity : ℚ
deriving DecidableEq, Repr

/-- One `category_discounts` bucket. -/
structure CategoryData where
  total_discount_revenue : ℚ
  total_revenue : ℚ
  num_transactions : ℕ
deriving DecidableEq, Repr

/-- One running-statistics tracker (`revenue_stats` etc.): running total,
count, and the capped 1000-element sample. -/
structure StatData where
  total : ℚ
  count : ℕ
  values : List ℚ
deriving DecidableEq, Repr

/-- An entry of the bounded anomaly list: the offending record dict plus
score and joined reason string, together with the numeric `revenue` that
`_update_anomaly_records` receives and that the stored dict holds (the
reason strings abstract the interpolated numbers of the source's
f-strings). -/
structure AnomalyRecord where
  record : AggRecord
  anomaly_score : ℤ
  anomaly_reasons : String
  revenue : ℚ
deriving DecidableEq, Repr

/-- The mutable state of a `DataAggregator`. -/
structure AggState where
  anomaly_limit : ℤ
  top_products_limit : ℤ
  monthly_sales : List (String × MonthlyData)
  product_sales : List (PyVal × PairData)
  region_sales : List (PyVal × PairData)
  category_discounts : List (PyVal × CategoryData)
  anomaly_records : List AnomalyRecord
  records_processed : ℕ
  revenue_stats : StatData
  quantity_stats : StatData
  price_stats : StatData
deriving DecidableEq, Repr

/-- `DataAggregator.__init__` / `_reset_aggregations`: empty buckets, zero
counters.  The constructor stores the limits unconditionally. -/
def initAggState (anomaly_limit top_products_limit : ℤ) : AggState :=
  ⟨anomaly_limit, top_products_limit, [], [], [], [], [], 0,
   ⟨0, 0, []⟩, ⟨0, 0, []⟩, ⟨0, 0, []⟩⟩

/-- `defaultdict` read: the stored bucket, or the default for a fresh key. -/
def getBucket [DecidableEq κ] (m : List (κ × β)) (k : κ) (dflt : β) : β :=
  match m.lookup k with
  | some b => b
  | none => dflt

/-- `defaultdict` write: an existing key keeps its position, a new key is
appended at the end (Python dict insertion order). -/
def setBucket [DecidableEq κ] (m : List (κ × β)) (k : κ) (b : β) : List (κ × β) :=
  match m with
  | [] => [(k, b)]
  | (k1, b1) :: rest => if k1 = k then (k, b) :: rest else (k1, b1) :: setBucket rest k b

/-- `self.bucket[k].f += ...` on a `defaultdict`. -/
def bucketUpdate [DecidableEq κ] (m : List (κ × β)) (k : κ) (dflt : β) (f : β → β) :
    List (κ × β) :=
  setBucket m k (f (getBucket m k dflt))

/-- One per-metric step of `_update_statistics`: add to the total, bump the
count, append to the sample only while it holds fewer than 1000 values. -/
def updateStat (st : StatData) (q : ℚ) : StatData :=
  ⟨st.total + q, st.count + 1, if st.values.length < 1000 then st.values ++ [q] else st.values⟩

/-- `DataAggregator._update_statistics`, with the dynamic-typing failure
points of the source: each `total += value` raises `TypeError` on a
non-number, keeping the updates already applied (revenue first, then
quantity, then price). -/
def updateStatistics (s : AggState) (revenue quantity unit_price : PyVal) :
    AggState × Bool :=
  match revenue.asNum with
  | none => (s, false)
  | some r =>
    let s1 := {s with revenue_stats := updateStat s.revenue_stats r}
    match quantity.asNum with
    | none => (s1, false)
    | some q =>
      let s2 := {s1 with quantity_stats := updateStat s1.quantity_stats q}
      match unit_price.asNum with
      | none => (s2, false)
      | some p => ({s2 with price_stats := updateStat s2.price_stats p}, true)

/-- `DataAggregator._statistical_anomaly_checks`: score contributions from
the three running-mean rules, with their reason strings. -/
def statisticalAnomalyChecks (s : AggState) (revenue quantity unit_price : ℚ) :
    ℤ × List String :=
  let avg_revenue := s.revenue_stats.total / (s.revenue_stats.count : ℚ)
  let p1 : ℤ × List String :=
    if avg_revenue * 10 < revenue then (3, ["Extremely high revenue"]) else (0, [])
  let avg_quantity := s.quantity_stats.total / (s.quantity_stats.count : ℚ)
  let p2 : ℤ × List String :=
    if avg_quantity * 5 < quantity then (2, ["Unusually high quantity"]) else (0, [])
  let avg_price := s.price_stats.total / (s.price_stats.count : ℚ)
  let p3 : ℤ × List String :=
    if avg_price * 5 < unit_price then (2, ["Extremely high unit price"]) else (0, [])
  (p1.1 + p2.1 + p3.1, p1.2 ++ p2.2 ++ p3.2)

/-- `DataAggregator._discount_anomaly_checks`. -/
def discountAnomalyChecks (unit_price discount : ℚ) : ℤ × List String :=
  let p1 : ℤ × List String :=
    if (7 : ℚ) / 10 < discount then (1, ["Suspicious high discount"]) else (0, [])
  let p2 : ℤ × List String :=
    if 1000 < unit_price ∧ (1 : ℚ) / 2 < discount then
      (2, ["High-value item with large discount"])
    else (0, [])
  (p1.1 + p2.1, p1.2 ++ p2.2)

/-- `DataAggregator._revenue_threshold_anomaly`. -/
def revenueThresholdAnomaly (revenue : ℚ) : ℤ × List String :=
  if 50000 < revenue then (1, ["High-value transaction"]) else (0, [])

/-- `DataAggregator._extreme_combination_anomaly`. -/
def extremeCombinationAnomaly (quantity unit_price : ℚ) : ℤ × List String :=
  if 100 < quantity ∧ 500 < unit_price then
    (2, ["Large quantity of expensive items"])
  else (0, [])

/-- The comparison realizing Python's
`sort(key=lambda x: (x[score], x[revenue]), reverse=True)`: a stable sort
with this `le` is descending lexicographically in (score, revenue). -/
def anomalyLE (x y : AnomalyRecord) : Bool :=
  decide (y.anomaly_score < x.anomaly_score ∨
    (y.anomaly_score = x.anomaly_score ∧ y.revenue ≤ x.revenue))

/-- `DataAggregator._update_anomaly_records`: append and re-sort while the
list is below `anomaly_limit`; otherwise compare with the last entry and
replace it only when strictly better by (score, then revenue); `pop()` on
an empty full list (possible only for `anomaly_limit ≤ 0`) raises
`IndexError`, reported as a `false` flag. -/
def updateAnomalyRecords (s : AggState) (ar : AnomalyRecord) : AggState × Bool :=
  if (s.anomaly_records.length : ℤ) < s.anomaly_limit then
    ({s with anomaly_records := (s.anomaly_records ++ [ar]).mergeSort anomalyLE}, true)
  else
    match s.anomaly_records.getLast? with
    | none => (s, false)
    | some last =>
      if last.anomaly_score < ar.anomaly_score ∨
          (ar.anomaly_score = last.anomaly_score ∧ last.revenue < ar.revenue) then
        ({s with anomaly_records := ((s.anomaly_records.dropLast ++ [ar]).mergeSort anomalyLE)},
          true)
      else (s, true)

/-- The total anomaly score of `_detect_and_update_anomalies`: statistical
rules only once more than 100 records have been processed, then discount,
revenue-threshold and extreme-combination rules. -/
def anomalyScoreOf (s : AggState) (revenue quantity unit_price discount : ℚ) : ℤ :=
  (if 100 < s.records_processed then
    (statisticalAnomalyChecks s revenue quantity unit_price).1
   else 0) +
  (discountAnomalyChecks unit_price discount).1 +
  (revenueThresholdAnomaly revenue).1 +
  (extremeCombinationAnomaly quantity unit_price).1

/-- The collected reason strings of `_detect_and_update_anomalies`. -/
def anomalyReasonsOf (s : AggState) (revenue quantity unit_price discount : ℚ) :
    List String :=
  (if 100 < s.records_processed then
    (statisticalAnomalyChecks s revenue quantity unit_price).2
   else []) ++
  (discountAnomalyChecks unit_price discount).2 ++
  (revenueThresholdAnomaly revenue).2 ++
  (extremeCombinationAnomaly quantity unit_price).2

/-- `DataAggregator._detect_and_update_anomalies`, called with the numeric
field values (at the call site the four extractions are known numbers,
since `_update_statistics` and the bucket updates succeeded on them). -/
def detectAndUpdateAnomalies (s : AggState) (r : AggRecord)
    (revenue quantity unit_price discount : ℚ) : AggState × Bool :=
  let score := anomalyScoreOf s revenue quantity unit_price discount
  if 2 ≤ score then
    updateAnomalyRecords s
      ⟨r, score,
        String.intercalate "; " (anomalyReasonsOf s revenue quantity unit_price discount),
        revenue⟩
  else (s, true)

/-- Fresh-bucket defaults of `_reset_aggregations`. -/
def monthlyDflt : MonthlyData := ⟨0, 0, 0, 0⟩

/-- Fresh `product_sales` / `region_sales` bucket. -/
def pairDflt : PairData := ⟨0, 0⟩

/-- Fresh `category_discounts` bucket. -/
def categoryDflt : CategoryData := ⟨0, 0, 0⟩

/-- `DataAggregator._process_single_record`, line by line, with the failure
points of the dynamically typed source: the required-fields check raises
`ValueError` before any mutation; a non-numeric among revenue, quantity and
unit price raises inside `_update_statistics` keeping the earlier metric
updates; a non-datetime `sale_date` raises at `strftime` after the
statistics were updated; a non-numeric discount raises at
`total_discount +=` after the monthly revenue and quantity were already
added; from there on every remaining update succeeds.  The flag is `false`
exactly when the Python method raises. -/
def processSingleRecord (s : AggState) (r : AggRecord) : AggState × Bool :=
  if getField r.quantity = .vNone ∨ getField r.unit_price = .vNone ∨
      getField r.discount_percent = .vNone ∨ getField r.sale_date = .vNone ∨
      getField r.revenue = .vNone then
    (s, false)
  else
    let product_name := r.product_name.getD (.vStr "Unknown")
    let region := r.region.getD (.vStr "Unknown")
    let category := r.category.getD (.vStr "Unknown")
    let step1 := updateStatistics s (getField r.revenue) (getField r.quantity)
      (getField r.unit_price)
    let s1 := step1.1
    if step1.2 = false then step1
    else
      match (getField r.revenue).asNum, (getField r.quantity).asNum,
          (getField r.unit_price).asNum with
      | some rv, some qv, some pv =>
        match getField r.sale_date with
        | .vDate y mo dd hh mi ss =>
          let month_key := monthKeyOf ⟨y, mo, dd, hh, mi, ss⟩
          let s2 := {s1 with monthly_sales := (
            bucketUpdate s1.monthly_sales month_key monthlyDflt
              (fun b => {b with revenue := b.revenue + rv, quantity := b.quantity + qv}))}
          match (getField r.discount_percent).asNum with
          | none => (s2, false)
          | some dv =>
            let s3 := {s2 with monthly_sales := (
              bucketUpdate s2.monthly_sales month_key monthlyDflt
                (fun b =>
                  {b with total_discount := b.total_discount + dv
                          num_transactions := b.num_transactions + 1}))}
            let s4 := {s3 with product_sales := (
              bucketUpdate s3.product_sales product_name pairDflt
                (fun b => {b with revenue := b.revenue + rv, quantity := b.quantity + qv}))}
            let s5 := {s4 with region_sales := (
              bucketUpdate s4.region_sales region pairDflt
                (fun b => {b with revenue := b.revenue + rv, quantity := b.quantity + qv}))}
            let s6 := {s5 with category_discounts := (
              bucketUpdate s5.category_discounts category categoryDflt
                (fun b =>
                  {b with total_discount_revenue := b.total_discount_revenue + rv * dv
                          total_revenue := b.total_revenue + rv
                          num_transactions := b.num_transactions + 1}))}
            detectAndUpdateAnomalies s6 r rv qv pv dv
        | _ => (s1, false)
      | _, _, _ => (s1, false)

/-- `DataAggregator.process_chunk`: per-record processing inside a
`try`/`except` that absorbs any exception; `records_processed` is bumped
only after a successful record. -/
def processChunk (s : AggState) (chunk : List AggRecord) : AggState :=
  chunk.foldl
    (fun s r =>
      let step := processSingleRecord s r
      if step.2 then {step.1 with records_processed := step.1.records_processed + 1}
      else step.1)
    s

/-- A finalized `monthly_sales` bucket: `avg_discount` replaces the
accumulator fields. -/
structure FinalMonthly where
  revenue : ℚ
  quantity : ℚ
  avg_discount : ℚ
deriving DecidableEq, Repr

/-- A finalized `category_discounts` bucket. -/
structure FinalCategory where
  avg_discount : ℚ
deriving DecidableEq, Repr

/-- The read-only state after `finalize_aggregations`. -/
structure FinalState where
  monthly_sales : List (String × FinalMonthly)
  product_sales : List (PyVal × PairData)
  region_sales : List (PyVal × PairData)
  category_discounts : List (PyVal × FinalCategory)
  anomaly_records : List AnomalyRecord
  top_products : List (PyVal × PairData)
  records_processed : ℕ
deriving DecidableEq, Repr

/-- Collapse of one monthly bucket at finalize: `avg_discount` is
`total_discount / num_transactions`, or `0.0` for an empty bucket. -/
def finalizeMonthly (d : MonthlyData) : FinalMonthly :=
  ⟨d.revenue, d.quantity,
   if 0 < d.num_transactions then d.total_discount / (d.num_transactions : ℚ) else 0⟩

/-- Collapse of one category bucket at finalize. -/
def finalizeCategory (d : CategoryData) : FinalCategory :=
  ⟨if 0 < d.total_revenue then d.total_discount_revenue / d.total_revenue else 0⟩

/-- The comparison realizing
`sorted(product_sales.items(), key=lambda item: item[1].revenue, reverse=True)`:
a stable sort with this `le` is descending in revenue with ties kept in
dict (insertion) order. -/
def productLE (x y : PyVal × PairData) : Bool := decide (y.2.revenue ≤ x.2.revenue)

/-- Python list slicing `l[:n]`, including the negative-index case. -/
def pySliceTo (n : ℤ) (l : List α) : List α :=
  if 0 ≤ n then l.take n.toNat else l.take (l.length - (-n).toNat)

/-- `DataAggregator.finalize_aggregations`: collapse the monthly and
category accumulators and compute the top-products slice. -/
def finalizeAggregations (s : AggState) : FinalState :=
  ⟨s.monthly_sales.map (fun p => (p.1, finalizeMonthly p.2)),
   s.product_sales,
   s.region_sales,
   s.category_discounts.map (fun p => (p.1, finalizeCategory p.2)),
   s.anomaly_records,
   pySliceTo s.top_products_limit (s.product_sales.mergeSort productLE),
   s.records_processed⟩

/-- The chunk accumulation loop of `CSVReader.read_in_chunks`: rows are
appended to the current chunk, which is yielded when its length reaches
`chunk_size`; a non-empty final chunk is yielded at the end.  (For a
non-positive `chunk_size` the length test never fires and everything ends
up in one final chunk, exactly as in the source.) -/
def readInChunksGo (n : ℕ) : List α → List α → List (List α)
  | [], acc => if acc.isEmpty then [] else [acc]
  | r :: rs, acc =>
    let acc2 := acc ++ [r]
    if acc2.length = n then acc2 :: readInChunksGo n rs [] else readInChunksGo n rs acc2

/-- `CSVReader.read_in_chunks(chunk_size)` on the parsed row list. -/
def readInChunks (n : ℕ) (rows : List α) : List (List α) := readInChunksGo n rows []

/-- The accepted-record view of one raw chunk, as built by
`DataPipeline._process_chunks`: clean every row, keep the survivors. -/
def cleanChunk (chunk : List RawRecord) : List AggRecord :=
  chunk.filterMap (fun r => (cleanRecord r).map CleanedRecord.toAgg)

/-- `DataPipeline._process_chunks`: pull chunks from the reader, clean
them, and hand each non-empty cleaned chunk to the aggregator. -/
def pipelineProcess (anomaly_limit top_products_limit : ℤ) (chunk_size : ℕ)
    (rows : List RawRecord) : AggState :=
  (readInChunks chunk_size rows).foldl
    (fun s chunk =>
      let cleaned := cleanChunk chunk
      if cleaned.isEmpty then s else processChunk s cleaned)
    (initAggState anomaly_limit top_products_limit)

/-- The configuration fields of `Config.__init__` that
`Config.validate_config` inspects. -/
structure ConfigT where
  DEFAULT_CHUNK_SIZE : ℤ
  MAX_MEMORY_USAGE_MB : ℤ
  DEFAULT_SAMPLE_ROWS : ℤ
  MAX_DISCOUNT_PERCENT : ℚ
  MIN_QUANTITY : ℤ
  MIN_UNIT_PRICE : ℚ
  ANOMALY_RECORDS_LIMIT : ℤ
  TOP_PRODUCTS_LIMIT : ℤ
  DASHBOARD_PORT : ℤ
  LOG_LEVEL : String
deriving DecidableEq, Repr

/-- `Config.validate_config`: it only *returns* per-setting booleans; it
raises nothing and no constructor calls it. -/
def validateConfig (c : ConfigT) : List (String × Bool) :=
  [("chunk_size", decide (0 < c.DEFAULT_CHUNK_SIZE)),
   ("memory_limit", decide (0 < c.MAX_MEMORY_USAGE_MB)),
   ("sample_rows", decide (0 < c.DEFAULT_SAMPLE_ROWS)),
   ("discount_range", decide (0 ≤ c.MAX_DISCOUNT_PERCENT ∧ c.MAX_DISCOUNT_PERCENT ≤ 1)),
   ("quantity_min", decide (0 ≤ c.MIN_QUANTITY)),
   ("price_min", decide (0 ≤ c.MIN_UNIT_PRICE)),
   ("anomaly_limit", decide (0 < c.ANOMALY_RECORDS_LIMIT)),
   ("top_products_limit", decide (0 < c.TOP_PRODUCTS_LIMIT)),
   ("dashboard_port", decide (1000 ≤ c.DASHBOARD_PORT ∧ c.DASHBOARD_PORT ≤ 65535)),
   ("log_level", (["DEBUG", "INFO", "WARNING", "ERROR", "CRITICAL"].contains
     c.LOG_LEVEL.toUpper))]

/-- `DataAggregator.__init__(anomaly_limit, top_products_limit)`: the body
stores the limits and resets the aggregations; it contains no validation
and no raise, so construction always succeeds — the `Except` result makes
that absence of a failure path explicit. -/
def dataAggregatorNew (anomaly_limit top_products_limit : ℤ) : Except String AggState :=
  .ok (initAggState anomaly_limit top_products_limit)

/-- `DataPipeline.__init__`: stores paths and chunk size, builds the
reader, cleaner, aggregator (with the config limits) and saver.  No
component constructor validates the configuration or raises for
non-positive limits or chunk size, so pipeline construction always
succeeds; the aggregator state is the observable core state it creates. -/
def dataPipelineNew (chunk_size : ℤ) (c : ConfigT) : Except String (ℤ × AggState) :=
  match dataAggregatorNew c.ANOMALY_RECORDS_LIMIT c.TOP_PRODUCTS_LIMIT with
  | .ok agg => .ok (chunk_size, agg)
  | .error e => .error e


/-! ## Concrete fixtures used by witnesses and counterexamples -/

/-- A well-formed raw row (witness input). -/
def sampleRowA : RawRecord :=
  ⟨some (.vStr "laptop pro"), some (.vStr "electronics"), some (.vStr "north"),
   some (.vStr "2"), some (.vStr "1000"), some (.vStr "0.1"),
   some (.vStr "2024-01-05"), none⟩

/-- A second well-formed raw row (witness input). -/
def sampleRowB : RawRecord :=
  ⟨some (.vStr "blender pro"), some (.vStr "home appliance"), some (.vStr "south"),
   some (.vStr "1"), some (.vStr "500"), some (.vStr "0.0"),
   some (.vStr "2024-01-20"), none⟩

/-- A raw row with a negative quantity string (dropped by the cleaner). -/
def sampleRowBad : RawRecord :=
  ⟨some (.vStr "x"), none, none, some (.vStr "-5"), some (.vStr "10"),
   some (.vStr "0.1"), some (.vStr "2024-01-01"), none⟩

/-- A small input file (witness input). -/
def sampleRows : List RawRecord := [sampleRowA, sampleRowBad, sampleRowB]

/-- A raw row whose quantity is the Python float `0.5` and whose unit price
is the string `"-10"`: the cleaner accepts it with quantity `0` and a
negative unit price. -/
def sampleRowEdge : RawRecord :=
  ⟨some (.vStr "widget"), none, none, some (.vNum ((1 : ℚ) / 2)),
   some (.vStr "-10"), some (.vNum 0), some (.vStr "2024-01-15"), none⟩

/-- An aggregator record whose `discount_percent` holds a string: the
required-fields check passes but `total_discount += discount_percent`
raises `TypeError` mid-update. -/
def sampleBadDiscount : AggRecord :=
  ⟨some (.vNum 3), some (.vNum 10), some (.vStr "oops"),
   some (.vDate 2024 1 15 0 0 0), some (.vNum 30), some (.vStr "Widget"),
   some (.vStr "North"), some (.vStr "Electronics")⟩

/-- A well-formed aggregator record (witness input). -/
def sampleGoodAgg : AggRecord :=
  ⟨some (.vNum 2), some (.vNum 1000), some (.vNum ((1 : ℚ) / 10)),
   some (.vDate 2024 1 5 0 0 0), some (.vNum 1800), some (.vStr "Laptop Pro 15"),
   some (.vStr "North"), some (.vStr "Electronics")⟩

/-- An anomaly-list entry fixture. -/
def sampleAnomalyEntry (score : ℤ) (rev : ℚ) : AnomalyRecord :=
  ⟨sampleGoodAgg, score, "High-value transaction", rev⟩

/-- A full, sorted aggregator state with `anomaly_limit = 2` (witness
input for the bounded-replacement rule). -/
def sampleFullState : AggState :=
  {initAggState 2 10 with anomaly_records :=
    [sampleAnomalyEntry 5 300, sampleAnomalyEntry 3 100]}

/-- A small state with products (witness input for top-product facts). -/
def sampleProductState : AggState :=
  {initAggState 5 2 with product_sales :=
    [(.vStr "A", ⟨100, 1⟩), (.vStr "B", ⟨300, 2⟩), (.vStr "C", ⟨100, 4⟩)]}


/-- A `Config` instance with the three claim-relevant settings as
parameters and the remaining validated settings at their env-default
values. -/
def mkSampleConfig (a t c : ℤ) : ConfigT :=
  ⟨c, 512, 10000, 1, 1, (1 : ℚ) / 100, a, t, 8000, "INFO"⟩


/-- Total quantity accumulated over the monthly buckets. -/
def monthlyQtySum (s : AggState) : ℚ := (s.monthly_sales.map (fun p => p.2.quantity)).sum

/-- Total quantity accumulated over the region buckets. -/
def regionQtySum (s : AggState) : ℚ := (s.region_sales.map (fun p => p.2.quantity)).sum

/-- The number of container elements the aggregator retains: entries of
the four bucket maps, the anomaly list, and the three capped samples.
(The scalar counters and totals are constant-size.) -/
def stateSize (s : AggState) : ℕ :=
  s.monthly_sales.length + s.product_sales.length + s.region_sales.length +
    s.category_discounts.length + s.anomaly_records.length +
    s.revenue_stats.values.length + s.quantity_stats.values.length +
    s.price_stats.values.length

/-- The monthly key a record contributes (only when its sale date is a
datetime, the only case in which the bucket write is reached). -/
def recMonthKey (r : AggRecord) : Option String :=
  match getField r.sale_date with
  | .vDate y mo dd hh mi ss => some (monthKeyOf ⟨y, mo, dd, hh, mi, ss⟩)
  | _ => none

/-- The product key a record contributes. -/
def recProductKey (r : AggRecord) : PyVal := r.product_name.getD (.vStr "Unknown")

/-- The region key a record contributes. -/
def recRegionKey (r : AggRecord) : PyVal := r.region.getD (.vStr "Unknown")

/-- The category key a record contributes. -/
def recCategoryKey (r : AggRecord) : PyVal := r.category.getD (.vStr "Unknown")

/-! ## Basic facts about the reader and the processing loop -/

/-- Flattening the reader's chunks recovers the source rows, whatever the
chunk size. -/
theorem readInChunksGo_flatten (n : ℕ) :
    ∀ (rows acc : List α), (readInChunksGo n rows acc).flatten = acc ++ rows := by
  intro rows
  induction rows with
  | nil =>
    intro acc
    by_cases h : acc.isEmpty
    · simp [readInChunksGo, h, List.isEmpty_iff.mp h]
    · simp [readInChunksGo, h]
  | cons r rs ih =>
    intro acc
    by_cases h : acc.length + 1 = n
    · simp [readInChunksGo, h, ih]
    · simpa [readInChunksGo, h] using ih (acc ++ [r])

/-- Flattening the reader's output recovers the source rows. -/
theorem readInChunks_flatten (n : ℕ) (rows : List α) :
    (readInChunks n rows).flatten = rows := by
  simpa using readInChunksGo_flatten n rows []

/-- `process_chunk` is a per-record fold, so it splits over concatenation. -/
theorem processChunk_append (s : AggState) (l1 l2 : List AggRecord) :
    processChunk s (l1 ++ l2) = processChunk (processChunk s l1) l2 := by
  unfold processChunk
  rw [List.foldl_append]

/-- Cleaning distributes over chunk concatenation. -/
theorem cleanChunk_append (l1 l2 : List RawRecord) :
    cleanChunk (l1 ++ l2) = cleanChunk l1 ++ cleanChunk l2 := by
  unfold cleanChunk
  rw [List.filterMap_append]

/-- The chunked pipeline loop equals one pass over all cleaned rows: the
batching structure is invisible to the aggregator. -/
theorem pipelineProcess_eq_single_pass (a t : ℤ) (n : ℕ) (rows : List RawRecord) :
    pipelineProcess a t n rows = processChunk (initAggState a t) (cleanChunk rows) := by
  have key : ∀ (chunks : List (List RawRecord)) (s : AggState),
      chunks.foldl
        (fun s chunk =>
          let cleaned := cleanChunk chunk
          if cleaned.isEmpty then s else processChunk s cleaned) s
      = processChunk s (cleanChunk chunks.flatten) := by
    intro chunks
    induction chunks with
    | nil => intro s; simp [cleanChunk, processChunk]
    | cons c cs ih =>
      intro s
      have step : (if (cleanChunk c).isEmpty then s else processChunk s (cleanChunk c))
          = processChunk s (cleanChunk c) := by
        by_cases h : (cleanChunk c).isEmpty
        · simp [h, List.isEmpty_iff.mp h, processChunk]
        · simp [h]
      simp only [List.foldl_cons, step, ih, List.flatten_cons, cleanChunk_append,
        processChunk_append]
  have := key (readInChunks n rows) (initAggState a t)
  rw [pipelineProcess, this, readInChunks_flatten]

/-! ## C1: chunking invariance -/

/-- C1: for every input file and every pair of positive batch sizes,
running the pipeline on the identical input with the two batch sizes
produces identical per-key aggregate state in the monthly, product, region
and category buckets (all accumulators, for every key), both before and
after finalization. -/
theorem chunking_invariance_c1 (rows : List RawRecord) (a t : ℤ) (n m : ℕ)
    (hn : 0 < n) (hm : 0 < m) :
    (pipelineProcess a t n rows).monthly_sales = (pipelineProcess a t m rows).monthly_sales ∧
    (pipelineProcess a t n rows).product_sales = (pipelineProcess a t m rows).product_sales ∧
    (pipelineProcess a t n rows).region_sales = (pipelineProcess a t m rows).region_sales ∧
    (pipelineProcess a t n rows).category_discounts
      = (pipelineProcess a t m rows).category_discounts ∧
    (finalizeAggregations (pipelineProcess a t n rows)).monthly_sales
      = (finalizeAggregations (pipelineProcess a t m rows)).monthly_sales ∧
    (finalizeAggregations (pipelineProcess a t n rows)).product_sales
      = (finalizeAggregations (pipelineProcess a t m rows)).product_sales ∧
    (finalizeAggregations (pipelineProcess a t n rows)).region_sales
      = (finalizeAggregations (pipelineProcess a t m rows)).region_sales ∧
    (finalizeAggregations (pipelineProcess a t n rows)).category_discounts
      = (finalizeAggregations (pipelineProcess a t m rows)).category_discounts := by
  have h : pipelineProcess a t n rows = pipelineProcess a t m rows := by
    rw [pipelineProcess_eq_single_pass, pipelineProcess_eq_single_pass]
  rw [h]
  exact ⟨rfl, rfl, rfl, rfl, rfl, rfl, rfl, rfl⟩

/-- C1 witness: the invariance at a concrete input with batch sizes 1 and
3. -/
theorem chunking_invariance_c1_witness :
    (pipelineProcess 5 10 1 sampleRows).monthly_sales
      = (pipelineProcess 5 10 3 sampleRows).monthly_sales ∧
    (pipelineProcess 5 10 1 sampleRows).product_sales
      = (pipelineProcess 5 10 3 sampleRows).product_sales ∧
    (pipelineProcess 5 10 1 sampleRows).region_sales
      = (pipelineProcess 5 10 3 sampleRows).region_sales ∧
    (pipelineProcess 5 10 1 sampleRows).category_discounts
      = (pipelineProcess 5 10 3 sampleRows).category_discounts ∧
    (finalizeAggregations (pipelineProcess 5 10 1 sampleRows)).monthly_sales
      = (finalizeAggregations (pipelineProcess 5 10 3 sampleRows)).monthly_sales ∧
    (finalizeAggregations (pipelineProcess 5 10 1 sampleRows)).product_sales
      = (finalizeAggregations (pipelineProcess 5 10 3 sampleRows)).product_sales ∧
    (finalizeAggregations (pipelineProcess 5 10 1 sampleRows)).region_sales
      = (finalizeAggregations (pipelineProcess 5 10 3 sampleRows)).region_sales ∧
    (finalizeAggregations (pipelineProcess 5 10 1 sampleRows)).category_discounts
      = (finalizeAggregations (pipelineProcess 5 10 3 sampleRows)).category_discounts :=
  chunking_invariance_c1 sampleRows 5 10 1 3 (by decide) (by decide)

/-! ## C3: construction-time validation (corrected) -/

/-- C3 counterexample: with `anomalyLimit = 0`, `topProductsLimit = 0` and
`batchSize = 0` both `DataAggregator` and `DataPipeline` construction
succeed (no configuration error is raised at construction), contradicting
the claim that construction fails for non-positive values. -/
theorem construction_succeeds_counterexample_c3 :
    dataAggregatorNew 0 0 = Except.ok (initAggState 0 0) ∧
    dataPipelineNew 0 (mkSampleConfig 0 0 0) = Except.ok (0, initAggState 0 0) := by
  exact ⟨rfl, rfl⟩

/-- C3 amended: construction never fails, for any limits and batch size;
`Config.validate_config` — which no constructor calls and which only
returns booleans — reports `False` for the corresponding setting exactly
when it is non-positive. -/
theorem construction_no_validation_c3 (a t c : ℤ) :
    dataAggregatorNew a t = Except.ok (initAggState a t) ∧
    dataPipelineNew c (mkSampleConfig a t c) = Except.ok (c, initAggState a t) ∧
    (a ≤ 0 → (validateConfig (mkSampleConfig a t c)).lookup "anomaly_limit" = some false) ∧
    (t ≤ 0 →
      (validateConfig (mkSampleConfig a t c)).lookup "top_products_limit" = some false) ∧
    (c ≤ 0 → (validateConfig (mkSampleConfig a t c)).lookup "chunk_size" = some false) := by
  refine ⟨rfl, rfl, ?_, ?_, ?_⟩ <;>
    intro h <;> simp [validateConfig, mkSampleConfig, List.lookup] <;> omega

/-- C3 witness: the amended statement at `a = t = c = 0`. -/
theorem construction_no_validation_c3_witness :
    (0 : ℤ) ≤ 0 ∧
    (validateConfig (mkSampleConfig 0 0 0)).lookup "anomaly_limit" = some false ∧
    (validateConfig (mkSampleConfig 0 0 0)).lookup "top_products_limit" = some false ∧
    (validateConfig (mkSampleConfig 0 0 0)).lookup "chunk_size" = some false :=
  ⟨by decide, (construction_no_validation_c3 0 0 0).2.2.1 (by decide),
   (construction_no_validation_c3 0 0 0).2.2.2.1 (by decide),
   (construction_no_validation_c3 0 0 0).2.2.2.2 (by decide)⟩

/-! ## C9: the quantity cleaning rule -/

/-- Dropping a prefix satisfying `p` from a list ending in a character on
which `p` fails keeps that final character. -/
theorem dropWhile_append_last {p : Char → Bool} (c : Char) (hc : p c = false) :
    ∀ xs : List Char, ∃ zs, (xs ++ [c]).dropWhile p = zs ++ [c] := by
  intro xs
  induction xs with
  | nil => exact ⟨[], by simp [List.dropWhile, hc]⟩
  | cons x xs ih =>
    by_cases hx : p x
    · simpa [List.dropWhile, hx] using ih
    · exact ⟨x :: xs, by simp [List.dropWhile, hx]⟩

/-- `strip()` keeps a leading `-`. -/
theorem startsWithDash_pyStripChars (cs : List Char) (h : startsWithDash cs = true) :
    startsWithDash (pyStripChars cs) = true := by
  cases cs with
  | nil => simp [startsWithDash] at h
  | cons c rest =>
    have hc : c = '-' := by simpa [startsWithDash] using h
    subst hc
    have hws : Char.isWhitespace '-' = false := by decide
    unfold pyStripChars
    rw [List.dropWhile_cons_of_neg (by simp [hws])]
    have hrev : ('-' :: rest).reverse = rest.reverse ++ ['-'] := by simp
    rw [hrev]
    obtain ⟨zs, hz⟩ := dropWhile_append_last '-' hws rest.reverse
    rw [hz]
    simp [startsWithDash]

/-- C9: for a string-valued quantity, cleaning returns null when the
string starts with `-`; otherwise every non-digit character is stripped
and the remainder parsed as an integer, accepted only if strictly
positive; a numeric input is accepted and cast to integer only if strictly
positive; every other case resolves to null; and in particular the raw
quantity string `"-5"` makes `clean_record` drop the row. -/
theorem clean_quantity_c9 :
    (∀ s : String, startsWithDash s.data = true → cleanQuantity (.vStr s) = none) ∧
    (∀ s : String, startsWithDash (pyStripChars s.data) = false →
      cleanQuantity (.vStr s) =
        (match digitsToNat? (s.data.filter Char.isDigit) with
          | some n => if 0 < n then some (n : ℤ) else none
          | none => none)) ∧
    (∀ q : ℚ, cleanQuantity (.vNum q) = if 0 < q then some (q.num.tdiv q.den) else none) ∧
    cleanQuantity (.vStr "-5") = none ∧
    (∀ r : RawRecord, r.quantity = some (.vStr "-5") → cleanRecord r = none) ∧
    cleanQuantity .vNone = none ∧
    (∀ y mo dd hh mi ss, cleanQuantity (.vDate y mo dd hh mi ss) = none) := by
  refine ⟨fun s h => ?_, fun s h => ?_, fun q => rfl, by decide, fun r h => ?_, rfl,
    fun y mo dd hh mi ss => rfl⟩
  · simp [cleanQuantity, startsWithDash_pyStripChars s.data h]
  · simp [cleanQuantity, h]
  · rw [cleanRecord]
    have hq : cleanQuantity (getField r.quantity) = none := by
      rw [h]
      decide
    rw [hq]

/-- C9 witness: the characterization applied at the boundary inputs
`"-5"`, `" 12ab3 "` and the float `1/2`. -/
theorem clean_quantity_c9_witness :
    cleanQuantity (.vStr "-5") = none ∧
    cleanQuantity (.vStr " 12ab3 ") =
      (match digitsToNat? ((" 12ab3 ".data).filter Char.isDigit) with
        | some n => if 0 < n then some (n : ℤ) else none
        | none => none) ∧
    cleanQuantity (.vNum ((1 : ℚ) / 2)) =
      (if 0 < (1 : ℚ) / 2 then some (((1 : ℚ) / 2).num.tdiv ((1 : ℚ) / 2).den) else none) ∧
    cleanRecord {sampleRowBad with quantity := some (.vStr "-5")} = none :=
  ⟨clean_quantity_c9.1 "-5" (by decide),
   clean_quantity_c9.2.1 " 12ab3 " (by decide),
   clean_quantity_c9.2.2.1 ((1 : ℚ) / 2),
   clean_quantity_c9.2.2.2.2.1 _ rfl⟩

/-! ## C4: the shape of emitted cleaned records (corrected) -/

/-- A successfully cleaned quantity is never negative. -/
theorem cleanQuantity_nonneg (v : PyVal) (z : ℤ) (h : cleanQuantity v = some z) :
    0 ≤ z := by
  cases v with
  | vNum q =>
    rw [cleanQuantity] at h
    split at h
    · cases Option.some.inj h
      exact Int.tdiv_nonneg (le_of_lt (Rat.num_pos.mpr (by assumption))) (by positivity)
    · exact absurd h (by simp)
  | vStr s =>
    rw [cleanQuantity] at h
    split at h
    · exact absurd h (by simp)
    · split at h
      · split at h
        · cases Option.some.inj h
          exact Int.ofNat_nonneg _
        · exact absurd h (by simp)
      · exact absurd h (by simp)
  | vNone => exact absurd h (by simp [cleanQuantity])
  | vDate y mo dd hh mi ss => exact absurd h (by simp [cleanQuantity])

/-- A quantity cleaned from a string is strictly positive. -/
theorem cleanQuantity_str_pos (s : String) (z : ℤ)
    (h : cleanQuantity (.vStr s) = some z) : 0 < z := by
  rw [cleanQuantity] at h
  split at h
  · exact absurd h (by simp)
  · split at h
    · split at h
      · cases Option.some.inj h
        exact_mod_cast (by assumption : 0 < _)
      · exact absurd h (by simp)
    · exact absurd h (by simp)

/-- A successfully cleaned discount lies in the closed unit interval. -/
theorem cleanDiscount_mem (v : PyVal) (d : ℚ) (h : cleanDiscount v = some d) :
    0 ≤ d ∧ d ≤ 1 := by
  rw [cleanDiscount] at h
  split at h
  · split at h
    · cases Option.some.inj h
      assumption
    · exact absurd h (by simp)
  · exact absurd h (by simp)

/-- C4 counterexample: the raw row with numeric quantity `0.5` and unit
price string `"-10"` is *not* rejected; it is emitted with quantity `0`
(not strictly positive) and unit price `-10` (negative), refuting the
claimed invariant as stated. -/
theorem clean_record_counterexample_c4 :
    cleanRecord sampleRowEdge =
      some ⟨some "Widget", none, none, 0, -10, 0, ⟨2024, 1, 15, 0, 0, 0⟩, "anonymous", 0⟩ ∧
    ¬ (0 : ℤ) < 0 ∧ (-10 : ℚ) < 0 := by
  exact ⟨by decide, by decide, by decide⟩

/-- C4 amended: every emitted record has a non-negative integer quantity
(strictly positive whenever the raw quantity was a string, as it always is
on the CSV path), an unrestricted-sign float unit price, a discount in
`[0, 1]`, a (non-null) parsed sale date, and
`revenue = quantity * unit_price * (1 - discount_percent)`; a row whose
quantity, unit price, discount or sale date cleans to null is rejected. -/
theorem clean_record_amended_c4 :
    (∀ (r : RawRecord) (rec : CleanedRecord), cleanRecord r = some rec →
      0 ≤ rec.quantity ∧ 0 ≤ rec.discount_percent ∧ rec.discount_percent ≤ 1 ∧
      rec.revenue = (rec.quantity : ℚ) * rec.unit_price * (1 - rec.discount_percent) ∧
      (∀ s, getField r.quantity = .vStr s → 0 < rec.quantity)) ∧
    (∀ r : RawRecord,
      (cleanQuantity (getField r.quantity) = none ∨
        cleanFloat (getField r.unit_price) = none ∨
        cleanDiscount (getField r.discount_percent) = none ∨
        cleanDate (getField r.sale_date) = none) →
      cleanRecord r = none) := by
  constructor
  · intro r rec h
    rw [cleanRecord] at h
    rcases hq : cleanQuantity (getField r.quantity) with _ | q <;> rw [hq] at h
    · exact absurd h (by simp)
    rcases hp : cleanFloat (getField r.unit_price) with _ | p <;> rw [hp] at h
    · exact absurd h (by simp)
    rcases hd : cleanDiscount (getField r.discount_percent) with _ | d <;> rw [hd] at h
    · exact absurd h (by simp)
    rcases ht : cleanDate (getField r.sale_date) with _ | dt <;> rw [ht] at h
    · exact absurd h (by simp)
    cases Option.some.inj h
    refine ⟨cleanQuantity_nonneg _ _ hq, (cleanDiscount_mem _ _ hd).1,
      (cleanDiscount_mem _ _ hd).2, rfl, ?_⟩
    intro s hs
    rw [hs] at hq
    exact cleanQuantity_str_pos s q hq
  · intro r h
    rw [cleanRecord]
    rcases hq : cleanQuantity (getField r.quantity) with _ | q <;>
      rcases hp : cleanFloat (getField r.unit_price) with _ | p <;>
      rcases hd : cleanDiscount (getField r.discount_percent) with _ | d <;>
      rcases ht : cleanDate (getField r.sale_date) with _ | dt <;>
      simp_all

/-- C4 witness: the amended claim at a concrete accepted row. -/
theorem clean_record_amended_c4_witness :
    (0 : ℤ) ≤ 2 ∧ 0 ≤ (1 : ℚ) / 10 ∧ (1 : ℚ) / 10 ≤ 1 ∧
    (1800 : ℚ) = ((2 : ℤ) : ℚ) * 1000 * (1 - (1 : ℚ) / 10) ∧
    cleanRecord sampleRowBad = none := by
  have h := clean_record_amended_c4.1 sampleRowA
    ⟨some "Laptop Pro 15", some "Electronics", some "North", 2, 1000, (1 : ℚ) / 10,
      ⟨2024, 1, 5, 0, 0, 0⟩, "anonymous", 1800⟩ (by decide)
  have h2 := clean_record_amended_c4.2 sampleRowBad (Or.inl (by decide))
  exact ⟨h.1, h.2.1, h.2.2.1, h.2.2.2.1, h2⟩

/-! ## C6: the anomaly score -/

/-- C6: the anomaly score is exactly the sum of the seven indicator
contributions — the three statistical rules (worth 3, 2, 2) only once more
than 100 records have been processed, plus 1 for discount above 0.7, plus
2 for unit price above 1000 with discount above 0.5, plus 1 for revenue
above 50000, plus 2 for quantity above 100 with unit price above 500 — and
the record is submitted to the bounded anomaly list iff the total is at
least 2. -/
theorem anomaly_score_c6 (s : AggState) (r : AggRecord) (rv qv pv dv : ℚ) :
    anomalyScoreOf s rv qv pv dv =
      (if 100 < s.records_processed then
        (if 10 * (s.revenue_stats.total / (s.revenue_stats.count : ℚ)) < rv then 3 else 0) +
        (if 5 * (s.quantity_stats.total / (s.quantity_stats.count : ℚ)) < qv then 2 else 0) +
        (if 5 * (s.price_stats.total / (s.price_stats.count : ℚ)) < pv then 2 else 0)
      else 0) +
      (if (7 : ℚ) / 10 < dv then 1 else 0) +
      (if 1000 < pv ∧ (1 : ℚ) / 2 < dv then 2 else 0) +
      (if 50000 < rv then 1 else 0) +
      (if 100 < qv ∧ 500 < pv then 2 else 0) ∧
    detectAndUpdateAnomalies s r rv qv pv dv =
      (if 2 ≤ anomalyScoreOf s rv qv pv dv then
        updateAnomalyRecords s ⟨r, anomalyScoreOf s rv qv pv dv,
          String.intercalate "; " (anomalyReasonsOf s rv qv pv dv), rv⟩
      else (s, true)) := by
  constructor
  · rw [anomalyScoreOf, statisticalAnomalyChecks, discountAnomalyChecks,
      revenueThresholdAnomaly, extremeCombinationAnomaly]
    simp only [mul_comm]
    split_ifs <;> norm_num
  · rfl

/-! ## C10: absorbed per-record failures leave partial updates -/

/-- C10: when a record passes the required-fields check with numeric
quantity, unit price and revenue and a datetime sale date, but a
string-valued (non-numeric) discount, `_process_single_record` raises at
`total_discount += discount_percent`; the exception is absorbed by
`process_chunk`, which continues with the next record, but the three
running-statistic updates and the monthly bucket's revenue/quantity
updates persist (no rollback) while its `total_discount`,
`num_transactions`, the other buckets and `records_processed` are left
untouched — the post-failure state is neither unchanged nor fully
updated. -/
theorem partial_update_on_failure_c10 (s : AggState) (r : AggRecord)
    (rest : List AggRecord) (qv pv rv : ℚ) (y mo dd hh mi ss : ℕ) (ds : String)
    (hq : r.quantity = some (.vNum qv)) (hp : r.unit_price = some (.vNum pv))
    (hrev : r.revenue = some (.vNum rv))
    (hdate : r.sale_date = some (.vDate y mo dd hh mi ss))
    (hd : r.discount_percent = some (.vStr ds)) :
    processSingleRecord s r =
      ({s with revenue_stats := updateStat s.revenue_stats rv
               quantity_stats := updateStat s.quantity_stats qv
               price_stats := updateStat s.price_stats pv
               monthly_sales := (
                 bucketUpdate s.monthly_sales (monthKeyOf ⟨y, mo, dd, hh, mi, ss⟩)
                   monthlyDflt
                   (fun b => {b with revenue := b.revenue + rv, quantity := b.quantity + qv}))},
        false) ∧
    (processSingleRecord s r).1.records_processed = s.records_processed ∧
    (processSingleRecord s r).1.revenue_stats.count = s.revenue_stats.count + 1 ∧
    processChunk s (r :: rest) = processChunk (processSingleRecord s r).1 rest := by
  have h1 : processSingleRecord s r =
      ({s with revenue_stats := updateStat s.revenue_stats rv
               quantity_stats := updateStat s.quantity_stats qv
               price_stats := updateStat s.price_stats pv
               monthly_sales := (
                 bucketUpdate s.monthly_sales (monthKeyOf ⟨y, mo, dd, hh, mi, ss⟩)
                   monthlyDflt
                   (fun b => {b with revenue := b.revenue + rv, quantity := b.quantity + qv}))},
        false) := by
    simp [processSingleRecord, hq, hp, hrev, hdate, hd, getField, updateStatistics,
      PyVal.asNum]
  refine ⟨h1, ?_, ?_, ?_⟩
  · simp [h1]
  · simp [h1, updateStat]
  · simp only [processChunk, List.foldl_cons]
    simp [h1]

/-- C10 witness: the partial update at a concrete state and record. -/
theorem partial_update_on_failure_c10_witness :
    processSingleRecord (initAggState 5 10) sampleBadDiscount =
      ({initAggState 5 10 with
        revenue_stats := updateStat (initAggState 5 10).revenue_stats 30
        quantity_stats := updateStat (initAggState 5 10).quantity_stats 3
        price_stats := updateStat (initAggState 5 10).price_stats 10
        monthly_sales := (
          bucketUpdate (initAggState 5 10).monthly_sales
            (monthKeyOf ⟨2024, 1, 15, 0, 0, 0⟩) monthlyDflt
            (fun b => {b with revenue := b.revenue + 30, quantity := b.quantity + 3}))},
      false) ∧
    (processSingleRecord (initAggState 5 10) sampleBadDiscount).1.records_processed
      = (initAggState 5 10).records_processed ∧
    (processSingleRecord (initAggState 5 10) sampleBadDiscount).1.revenue_stats.count
      = (initAggState 5 10).revenue_stats.count + 1 ∧
    processChunk (initAggState 5 10) (sampleBadDiscount :: [sampleGoodAgg])
      = processChunk (processSingleRecord (initAggState 5 10) sampleBadDiscount).1
          [sampleGoodAgg] :=
  partial_update_on_failure_c10 (initAggState 5 10) sampleBadDiscount [sampleGoodAgg]
    3 10 30 2024 1 15 0 0 0 "oops" rfl rfl rfl rfl rfl

/-! ## Order properties of the two sort comparisons -/

/-- `anomalyLE` is transitive. -/
theorem anomalyLE_trans (a b c : AnomalyRecord) (hab : anomalyLE a b) (hbc : anomalyLE b c) :
    anomalyLE a c := by
  simp only [anomalyLE, decide_eq_true_eq] at *
  rcases hab with h1 | ⟨h1, h2⟩ <;> rcases hbc with h3 | ⟨h3, h4⟩
  · exact Or.inl (h3.trans h1)
  · exact Or.inl (h3 ▸ h1)
  · exact Or.inl (h1 ▸ h3)
  · exact Or.inr ⟨h3.trans h1, h4.trans h2⟩

/-- `anomalyLE` is total. -/
theorem anomalyLE_total (a b : AnomalyRecord) : anomalyLE a b || anomalyLE b a := by
  simp only [anomalyLE, Bool.or_eq_true, decide_eq_true_eq]
  rcases lt_trichotomy a.anomaly_score b.anomaly_score with h | h | h
  · exact Or.inr (Or.inl h)
  · rcases le_total b.revenue a.revenue with hr | hr
    · exact Or.inl (Or.inr ⟨h.symm, hr⟩)
    · exact Or.inr (Or.inr ⟨h, hr⟩)
  · exact Or.inl (Or.inl h)

/-- `productLE` is transitive. -/
theorem productLE_trans (a b c : PyVal × PairData) (hab : productLE a b)
    (hbc : productLE b c) : productLE a c := by
  simp only [productLE, decide_eq_true_eq] at *
  exact hbc.trans hab

/-- `productLE` is total. -/
theorem productLE_total (a b : PyVal × PairData) : productLE a b || productLE b a := by
  simp only [productLE, Bool.or_eq_true, decide_eq_true_eq]
  exact (le_total b.2.revenue a.2.revenue)

/-! ## Shape lemmas for the aggregator's mutation steps -/

/-- `_update_statistics` touches only the three statistics trackers. -/
theorem updateStatistics_shape (s : AggState) (a b c : PyVal) :
    (updateStatistics s a b c).1.monthly_sales = s.monthly_sales ∧
    (updateStatistics s a b c).1.product_sales = s.product_sales ∧
    (updateStatistics s a b c).1.region_sales = s.region_sales ∧
    (updateStatistics s a b c).1.category_discounts = s.category_discounts ∧
    (updateStatistics s a b c).1.anomaly_records = s.anomaly_records ∧
    (updateStatistics s a b c).1.anomaly_limit = s.anomaly_limit ∧
    (updateStatistics s a b c).1.top_products_limit = s.top_products_limit ∧
    (updateStatistics s a b c).1.records_processed = s.records_processed := by
  cases ha : a.asNum <;> cases hb : b.asNum <;> cases hc : c.asNum <;>
    simp [updateStatistics, ha, hb, hc]

/-- The capped sample never exceeds 1000 entries. -/
theorem updateStat_values_le (st : StatData) (q : ℚ) (h : st.values.length ≤ 1000) :
    (updateStat st q).values.length ≤ 1000 := by
  simp only [updateStat]
  split
  · rename_i hlt
    simp only [List.length_append, List.length_singleton]
    omega
  · exact h

/-- `_update_anomaly_records` touches only the anomaly list. -/
theorem updateAnomalyRecords_shape (s : AggState) (ar : AnomalyRecord) :
    (updateAnomalyRecords s ar).1.monthly_sales = s.monthly_sales ∧
    (updateAnomalyRecords s ar).1.product_sales = s.product_sales ∧
    (updateAnomalyRecords s ar).1.region_sales = s.region_sales ∧
    (updateAnomalyRecords s ar).1.category_discounts = s.category_discounts ∧
    (updateAnomalyRecords s ar).1.anomaly_limit = s.anomaly_limit ∧
    (updateAnomalyRecords s ar).1.top_products_limit = s.top_products_limit ∧
    (updateAnomalyRecords s ar).1.records_processed = s.records_processed ∧
    (updateAnomalyRecords s ar).1.revenue_stats = s.revenue_stats ∧
    (updateAnomalyRecords s ar).1.quantity_stats = s.quantity_stats ∧
    (updateAnomalyRecords s ar).1.price_stats = s.price_stats := by
  unfold updateAnomalyRecords
  split
  · simp
  · split
    · simp
    · split <;> simp

/-- With a positive limit, `_update_anomaly_records` never raises
(`anomaly_records[-1]` is only reached on a non-empty list). -/
theorem updateAnomalyRecords_ok (s : AggState) (ar : AnomalyRecord)
    (h : 0 < s.anomaly_limit) : (updateAnomalyRecords s ar).2 = true := by
  unfold updateAnomalyRecords
  split
  · simp
  · rename_i hfull
    cases hlast : s.anomaly_records.getLast? with
    | none =>
      exfalso
      have : s.anomaly_records = [] := List.getLast?_eq_none_iff.mp hlast
      rw [this] at hfull
      simp at hfull
      omega
    | some last => simp [hlast]; split <;> simp

/-- The bounded-insert of `_update_anomaly_records` preserves the size cap
and sortedness. -/
theorem updateAnomalyRecords_invariant (s : AggState) (ar : AnomalyRecord)
    (hlen : s.anomaly_records.length ≤ s.anomaly_limit.toNat)
    (hsort : List.Pairwise (fun x y => anomalyLE x y = true) s.anomaly_records) :
    (updateAnomalyRecords s ar).1.anomaly_records.length ≤ s.anomaly_limit.toNat ∧
    List.Pairwise (fun x y => anomalyLE x y = true)
      (updateAnomalyRecords s ar).1.anomaly_records := by
  unfold updateAnomalyRecords
  split
  · rename_i hlt
    constructor
    · simp only [List.length_mergeSort, List.length_append, List.length_singleton]
      omega
    · exact List.sorted_mergeSort anomalyLE_trans anomalyLE_total _
  · split
    · exact ⟨hlen, hsort⟩
    · rename_i hfull last hlast
      have hne : s.anomaly_records ≠ [] := by
        intro habs
        rw [habs] at hlast
        simp at hlast
      have hpos : 0 < s.anomaly_records.length := List.length_pos.mpr hne
      split
      · constructor
        · simp only [List.length_mergeSort, List.length_append, List.length_singleton,
            List.length_dropLast]
          omega
        · exact List.sorted_mergeSort anomalyLE_trans anomalyLE_total _
      · exact ⟨hlen, hsort⟩

/-- When the list is full (and sorted, so the last entry is the
worst-ranked), the incoming candidate replaces that entry iff it is
strictly better by (score desc, revenue desc); otherwise nothing
changes. -/
theorem updateAnomalyRecords_replacement (s : AggState) (ar : AnomalyRecord)
    (hfull : ¬ ((s.anomaly_records.length : ℤ) < s.anomaly_limit))
    (hne : s.anomaly_records ≠ []) :
    ((s.anomaly_records.getLast hne).anomaly_score < ar.anomaly_score ∨
      (ar.anomaly_score = (s.anomaly_records.getLast hne).anomaly_score ∧
        (s.anomaly_records.getLast hne).revenue < ar.revenue) →
      (updateAnomalyRecords s ar).1.anomaly_records.Perm
        (s.anomaly_records.dropLast ++ [ar])) ∧
    (¬ ((s.anomaly_records.getLast hne).anomaly_score < ar.anomaly_score ∨
      (ar.anomaly_score = (s.anomaly_records.getLast hne).anomaly_score ∧
        (s.anomaly_records.getLast hne).revenue < ar.revenue)) →
      (updateAnomalyRecords s ar).1.anomaly_records = s.anomaly_records) := by
  unfold updateAnomalyRecords
  rw [if_neg hfull, List.getLast?_eq_getLast s.anomaly_records hne]
  dsimp only
  constructor
  · intro hbetter
    rw [if_pos hbetter]
    exact List.mergeSort_perm _ _
  · intro hworse
    rw [if_neg hworse]

/-- `_detect_and_update_anomalies` preserves the anomaly-list size cap and
sortedness. -/
theorem detect_invariant (s : AggState) (r : AggRecord) (rv qv pv dv : ℚ)
    (hlen : s.anomaly_records.length ≤ s.anomaly_limit.toNat)
    (hsort : List.Pairwise (fun x y => anomalyLE x y = true) s.anomaly_records) :
    (detectAndUpdateAnomalies s r rv qv pv dv).1.anomaly_records.length
      ≤ s.anomaly_limit.toNat ∧
    List.Pairwise (fun x y => anomalyLE x y = true)
      (detectAndUpdateAnomalies s r rv qv pv dv).1.anomaly_records := by
  unfold detectAndUpdateAnomalies
  dsimp only
  split
  · exact updateAnomalyRecords_invariant s _ hlen hsort
  · exact ⟨hlen, hsort⟩

/-- `_detect_and_update_anomalies` touches only the anomaly list. -/
theorem detect_shape (s : AggState) (r : AggRecord) (rv qv pv dv : ℚ) :
    (detectAndUpdateAnomalies s r rv qv pv dv).1.monthly_sales = s.monthly_sales ∧
    (detectAndUpdateAnomalies s r rv qv pv dv).1.product_sales = s.product_sales ∧
    (detectAndUpdateAnomalies s r rv qv pv dv).1.region_sales = s.region_sales ∧
    (detectAndUpdateAnomalies s r rv qv pv dv).1.category_discounts
      = s.category_discounts ∧
    (detectAndUpdateAnomalies s r rv qv pv dv).1.anomaly_limit = s.anomaly_limit ∧
    (detectAndUpdateAnomalies s r rv qv pv dv).1.top_products_limit
      = s.top_products_limit ∧
    (detectAndUpdateAnomalies s r rv qv pv dv).1.records_processed
      = s.records_processed ∧
    (detectAndUpdateAnomalies s r rv qv pv dv).1.revenue_stats = s.revenue_stats ∧
    (detectAndUpdateAnomalies s r rv qv pv dv).1.quantity_stats = s.quantity_stats ∧
    (detectAndUpdateAnomalies s r rv qv pv dv).1.price_stats = s.price_stats := by
  unfold detectAndUpdateAnomalies
  dsimp only
  split
  · exact updateAnomalyRecords_shape _ _
  · exact ⟨rfl, rfl, rfl, rfl, rfl, rfl, rfl, rfl, rfl, rfl⟩

/-- With a positive limit, `_detect_and_update_anomalies` never raises. -/
theorem detect_ok (s : AggState) (r : AggRecord) (rv qv pv dv : ℚ)
    (h : 0 < s.anomaly_limit) :
    (detectAndUpdateAnomalies s r rv qv pv dv).2 = true := by
  unfold detectAndUpdateAnomalies
  dsimp only
  split
  · exact updateAnomalyRecords_ok _ _ h
  · rfl

/-- `detect_invariant` and `detect_shape` combined, stated against the
caller's view of the state's anomaly fields. -/
theorem detect_invariant_rel (S : AggState) (r : AggRecord) (rv qv pv dv : ℚ)
    (A : List AnomalyRecord) (L : ℤ)
    (h1 : S.anomaly_records = A) (h2 : S.anomaly_limit = L)
    (hlen : A.length ≤ L.toNat)
    (hsort : List.Pairwise (fun x y => anomalyLE x y = true) A) :
    (detectAndUpdateAnomalies S r rv qv pv dv).1.anomaly_records.length
      ≤ (detectAndUpdateAnomalies S r rv qv pv dv).1.anomaly_limit.toNat ∧
    List.Pairwise (fun x y => anomalyLE x y = true)
      (detectAndUpdateAnomalies S r rv qv pv dv).1.anomaly_records ∧
    (detectAndUpdateAnomalies S r rv qv pv dv).1.anomaly_limit = L := by
  have k := detect_invariant S r rv qv pv dv
    (by rw [h1, h2]; exact hlen) (by rw [h1]; exact hsort)
  have klim : (detectAndUpdateAnomalies S r rv qv pv dv).1.anomaly_limit = L := by
    rw [(detect_shape S r rv qv pv dv).2.2.2.2.1, h2]
  refine ⟨?_, k.2, klim⟩
  rw [klim, ← h2]
  exact k.1

/-- One record step preserves the anomaly-list cap and sortedness, and the
configured limit itself. -/
theorem processSingleRecord_anomaly_invariant (s : AggState) (r : AggRecord)
    (hlen : s.anomaly_records.length ≤ s.anomaly_limit.toNat)
    (hsort : List.Pairwise (fun x y => anomalyLE x y = true) s.anomaly_records) :
    (processSingleRecord s r).1.anomaly_records.length
      ≤ (processSingleRecord s r).1.anomaly_limit.toNat ∧
    List.Pairwise (fun x y => anomalyLE x y = true)
      (processSingleRecord s r).1.anomaly_records ∧
    (processSingleRecord s r).1.anomaly_limit = s.anomaly_limit := by
  obtain ⟨hm, hp, hr, hc, han, hal, htl, hrp⟩ :=
    updateStatistics_shape s (getField r.revenue) (getField r.quantity)
      (getField r.unit_price)
  unfold processSingleRecord
  dsimp only
  split
  · exact ⟨hlen, hsort, rfl⟩
  · split
    · exact ⟨by rw [han, hal]; exact hlen, by rw [han]; exact hsort, hal⟩
    · split
      · split
        · split
          · exact ⟨by simp only [han, hal]; exact hlen, by simp only [han]; exact hsort, hal⟩
          · exact detect_invariant_rel _ r _ _ _ _ s.anomaly_records s.anomaly_limit
              (by dsimp only; exact han) (by dsimp only; exact hal) hlen hsort
        · exact ⟨by simp only [han, hal]; exact hlen, by simp only [han]; exact hsort, hal⟩
      · exact ⟨by simp only [han, hal]; exact hlen, by simp only [han]; exact hsort, hal⟩

/-- One record step keeps both configured limits unchanged. -/
theorem processSingleRecord_limits (s : AggState) (r : AggRecord) :
    (processSingleRecord s r).1.anomaly_limit = s.anomaly_limit ∧
    (processSingleRecord s r).1.top_products_limit = s.top_products_limit := by
  obtain ⟨hm, hp, hr, hc, han, hal, htl, hrp⟩ :=
    updateStatistics_shape s (getField r.revenue) (getField r.quantity)
      (getField r.unit_price)
  unfold processSingleRecord
  dsimp only
  split
  · exact ⟨rfl, rfl⟩
  · split
    · exact ⟨hal, htl⟩
    · split
      · split
        · split
          · exact ⟨hal, htl⟩
          · constructor
            · rw [(detect_shape _ _ _ _ _ _).2.2.2.2.1]
              exact hal
            · rw [(detect_shape _ _ _ _ _ _).2.2.2.2.2.1]
              exact htl
        · exact ⟨hal, htl⟩
      · exact ⟨hal, htl⟩

/-- The per-chunk loop preserves the anomaly-list cap, its sortedness, and
the configured limit. -/
theorem processChunk_anomaly_invariant (recs : List AggRecord) :
    ∀ s : AggState, s.anomaly_records.length ≤ s.anomaly_limit.toNat →
    List.Pairwise (fun x y => anomalyLE x y = true) s.anomaly_records →
    (processChunk s recs).anomaly_records.length
      ≤ (processChunk s recs).anomaly_limit.toNat ∧
    List.Pairwise (fun x y => anomalyLE x y = true)
      (processChunk s recs).anomaly_records ∧
    (processChunk s recs).anomaly_limit = s.anomaly_limit := by
  induction recs with
  | nil => exact fun s h1 h2 => ⟨h1, h2, rfl⟩
  | cons r rs ih =>
    intro s h1 h2
    obtain ⟨k1, k2, k3⟩ := processSingleRecord_anomaly_invariant s r h1 h2
    simp only [processChunk, List.foldl_cons] at *
    split
    · have := ih {(processSingleRecord s r).1 with
        records_processed := (processSingleRecord s r).1.records_processed + 1}
        (by exact k1) (by exact k2)
      exact ⟨this.1, this.2.1, by rw [this.2.2]; exact k3⟩
    · have := ih (processSingleRecord s r).1 k1 k2
      exact ⟨this.1, this.2.1, by rw [this.2.2]; exact k3⟩

/-! ## C5: the bounded anomaly list -/

/-- C5: starting from a fresh aggregator with positive `anomaly_limit`,
after ingesting any record sequence (hence at every observation point,
since every prefix is such a sequence) the anomaly list holds at most
`anomaly_limit` entries and is sorted by (score desc, revenue desc), and
finalize returns it unchanged; moreover, when the list is full, an
incoming candidate replaces the current worst-ranked (last) entry iff it
is strictly better by the same lexicographic order, and otherwise the list
is unchanged. -/
theorem anomaly_list_c5 :
    (∀ (a t : ℤ) (recs : List AggRecord), 0 < a →
      ((processChunk (initAggState a t) recs).anomaly_records.length : ℤ) ≤ a ∧
      List.Pairwise (fun x y => anomalyLE x y = true)
        (processChunk (initAggState a t) recs).anomaly_records ∧
      (finalizeAggregations (processChunk (initAggState a t) recs)).anomaly_records
        = (processChunk (initAggState a t) recs).anomaly_records) ∧
    (∀ (s : AggState) (ar : AnomalyRecord) (hne : s.anomaly_records ≠ []),
      ¬ ((s.anomaly_records.length : ℤ) < s.anomaly_limit) →
      (((s.anomaly_records.getLast hne).anomaly_score < ar.anomaly_score ∨
        (ar.anomaly_score = (s.anomaly_records.getLast hne).anomaly_score ∧
          (s.anomaly_records.getLast hne).revenue < ar.revenue)) →
        (updateAnomalyRecords s ar).1.anomaly_records.Perm
          (s.anomaly_records.dropLast ++ [ar])) ∧
      (¬ ((s.anomaly_records.getLast hne).anomaly_score < ar.anomaly_score ∨
        (ar.anomaly_score = (s.anomaly_records.getLast hne).anomaly_score ∧
          (s.anomaly_records.getLast hne).revenue < ar.revenue)) →
        (updateAnomalyRecords s ar).1.anomaly_records = s.anomaly_records)) := by
  constructor
  · intro a t recs ha
    obtain ⟨k1, k2, k3⟩ := processChunk_anomaly_invariant recs (initAggState a t)
      (by simp [initAggState]) (by simp [initAggState])
    rw [k3] at k1
    refine ⟨?_, k2, rfl⟩
    have : (initAggState a t).anomaly_limit = a := rfl
    rw [this] at k1
    omega
  · intro s ar hne hfull
    exact updateAnomalyRecords_replacement s ar hfull hne

/-- C5 witness: the invariant on a small run and the replacement rule on a
concrete full list. -/
theorem anomaly_list_c5_witness :
    (((processChunk (initAggState 2 3) [sampleGoodAgg]).anomaly_records.length : ℤ) ≤ 2 ∧
      List.Pairwise (fun x y => anomalyLE x y = true)
        (processChunk (initAggState 2 3) [sampleGoodAgg]).anomaly_records) ∧
    (updateAnomalyRecords sampleFullState (sampleAnomalyEntry 4 50)).1.anomaly_records.Perm
      (sampleFullState.anomaly_records.dropLast ++ [sampleAnomalyEntry 4 50]) :=
  ⟨⟨(anomaly_list_c5.1 2 3 [sampleGoodAgg] (by decide)).1,
    (anomaly_list_c5.1 2 3 [sampleGoodAgg] (by decide)).2.1⟩,
   (anomaly_list_c5.2 sampleFullState (sampleAnomalyEntry 4 50) (by decide)
      (by decide)).1 (by decide)⟩

/-! ## C7: the finalized top-products list -/

/-- The equal-revenue slice of the stable sort equals that slice of the
insertion-ordered store. -/
theorem mergeSort_filter_eq_revenue (ps : List (PyVal × PairData)) (q : ℚ) :
    (ps.mergeSort productLE).filter (fun p => decide (p.2.revenue = q))
      = ps.filter (fun p => decide (p.2.revenue = q)) := by
  have hpair : (ps.filter (fun p => decide (p.2.revenue = q))).Pairwise
      (fun x y => productLE x y = true) := by
    apply List.pairwise_of_forall_mem_list
    intro x hx y hy
    have hxq : x.2.revenue = q := by simpa using List.of_mem_filter hx
    have hyq : y.2.revenue = q := by simpa using List.of_mem_filter hy
    simp [productLE, hxq, hyq]
  have hsub : List.Sublist (ps.filter (fun p => decide (p.2.revenue = q))) (ps.mergeSort productLE) :=
    List.sublist_mergeSort productLE_trans productLE_total hpair (List.filter_sublist ps)
  have hsub2 : List.Sublist (ps.filter (fun p => decide (p.2.revenue = q)))
      ((ps.mergeSort productLE).filter (fun p => decide (p.2.revenue = q))) := by
    have h2 := hsub.filter (fun p => decide (p.2.revenue = q))
    rw [List.filter_filter] at h2
    simpa only [Bool.and_self] using h2
  have hlen : ((ps.mergeSort productLE).filter (fun p => decide (p.2.revenue = q))).length
      = (ps.filter (fun p => decide (p.2.revenue = q))).length :=
    ((List.mergeSort_perm ps productLE).filter _).length_eq
  exact (hsub2.eq_of_length hlen.symm).symm

/-- C7: after finalize, the top-products list is the product buckets
sorted by revenue descending, truncated to at most `top_products_limit`
entries; it is sorted by revenue descending, and for every revenue value
the equal-revenue entries appear as a subsequence of the insertion-ordered
product store (first-inserted first). -/
theorem top_products_c7 (s : AggState) (h : 0 < s.top_products_limit) :
    (finalizeAggregations s).top_products
      = (s.product_sales.mergeSort productLE).take s.top_products_limit.toNat ∧
    (finalizeAggregations s).top_products.length ≤ s.top_products_limit.toNat ∧
    List.Pairwise (fun x y => y.2.revenue ≤ x.2.revenue)
      (finalizeAggregations s).top_products ∧
    ∀ q : ℚ,
      List.Sublist
        ((finalizeAggregations s).top_products.filter (fun p => decide (p.2.revenue = q)))
        (s.product_sales.filter (fun p => decide (p.2.revenue = q))) := by
  have htake : (finalizeAggregations s).top_products
      = (s.product_sales.mergeSort productLE).take s.top_products_limit.toNat := by
    simp only [finalizeAggregations, pySliceTo]
    rw [if_pos (le_of_lt h)]
  refine ⟨htake, ?_, ?_, ?_⟩
  · rw [htake]
    exact (List.length_take_le _ _).trans (by simp)
  · rw [htake]
    have hs : (s.product_sales.mergeSort productLE).Pairwise
        (fun x y => productLE x y = true) :=
      List.sorted_mergeSort productLE_trans productLE_total _
    exact ((hs.sublist (List.take_sublist _ _)).imp
      (fun hxy => of_decide_eq_true hxy))
  · intro q
    rw [htake, ← mergeSort_filter_eq_revenue s.product_sales q]
    exact (List.take_sublist _ _).filter _

/-- C7 witness: the three properties at a concrete product store with a
revenue tie. -/
theorem top_products_c7_witness :
    (finalizeAggregations sampleProductState).top_products.length
      ≤ (2 : ℤ).toNat ∧
    List.Pairwise (fun x y => y.2.revenue ≤ x.2.revenue)
      (finalizeAggregations sampleProductState).top_products ∧
    List.Sublist
      ((finalizeAggregations sampleProductState).top_products.filter
        (fun p => decide (p.2.revenue = 100)))
      (sampleProductState.product_sales.filter
        (fun p => decide (p.2.revenue = 100))) :=
  ⟨(top_products_c7 sampleProductState (by decide)).2.1,
   (top_products_c7 sampleProductState (by decide)).2.2.1,
   (top_products_c7 sampleProductState (by decide)).2.2.2 100⟩

/-! ## C8: quantity conservation -/

/-- A `defaultdict` update shifts the `g`-sum of a keyed map by exactly
the per-bucket shift of the update. -/
theorem sum_bucketUpdate {κ β : Type} [DecidableEq κ] (m : List (κ × β)) (k : κ)
    (dflt : β) (f : β → β) (g : β → ℚ) (d : ℚ) (hf : ∀ b, g (f b) = g b + d)
    (hd : g dflt = 0) :
    ((bucketUpdate m k dflt f).map (fun p => g p.2)).sum
      = ((m.map (fun p => g p.2)).sum) + d := by
  induction m with
  | nil =>
    simp [bucketUpdate, setBucket, getBucket, List.lookup, hf, hd]
  | cons hd2 rest ih =>
    obtain ⟨k1, b1⟩ := hd2
    by_cases hk : k1 = k
    · subst hk
      simp [bucketUpdate, setBucket, getBucket, List.lookup, hf]
      ring
    · have hk2 : (k == k1) = false := by simp [Ne.symm hk]
      simp only [bucketUpdate, setBucket, getBucket, List.lookup, hk2, if_neg hk,
        List.map_cons, List.sum_cons] at *
      rw [ih]
      ring

/-- Specialization to the quantity field of monthly buckets. -/
theorem monthly_sum_q (m : List (String × MonthlyData)) (k : String)
    (f : MonthlyData → MonthlyData) (d : ℚ) (hf : ∀ b, (f b).quantity = b.quantity + d) :
    ((bucketUpdate m k monthlyDflt f).map (fun p => p.2.quantity)).sum
      = ((m.map (fun p => p.2.quantity)).sum) + d :=
  sum_bucketUpdate m k monthlyDflt f (fun b => b.quantity) d hf rfl

/-- Specialization to the quantity field of pair buckets. -/
theorem pair_sum_q (m : List (PyVal × PairData)) (k : PyVal)
    (f : PairData → PairData) (d : ℚ) (hf : ∀ b, (f b).quantity = b.quantity + d) :
    ((bucketUpdate m k pairDflt f).map (fun p => p.2.quantity)).sum
      = ((m.map (fun p => p.2.quantity)).sum) + d :=
  sum_bucketUpdate m k pairDflt f (fun b => b.quantity) d hf rfl

/-- A fully well-typed record (the shape `clean_record` emits) processes
successfully when the anomaly limit is positive, adds its quantity to both
the monthly and the region totals, and keeps the limit. -/
theorem processSingleRecord_wf_sums (s : AggState) (r : AggRecord)
    (rv qv pv dv : ℚ) (y mo dd hh mi ss : ℕ)
    (hq : r.quantity = some (.vNum qv)) (hp : r.unit_price = some (.vNum pv))
    (hrev : r.revenue = some (.vNum rv))
    (hdate : r.sale_date = some (.vDate y mo dd hh mi ss))
    (hd : r.discount_percent = some (.vNum dv)) (hlim : 0 < s.anomaly_limit) :
    (processSingleRecord s r).2 = true ∧
    monthlyQtySum (processSingleRecord s r).1 = monthlyQtySum s + qv ∧
    regionQtySum (processSingleRecord s r).1 = regionQtySum s + qv ∧
    (processSingleRecord s r).1.anomaly_limit = s.anomaly_limit := by
  simp only [monthlyQtySum, regionQtySum]
  simp [processSingleRecord, hq, hp, hrev, hdate, hd, getField, updateStatistics,
    PyVal.asNum]
  refine ⟨?_, ?_, ?_, ?_⟩
  · exact detect_ok _ r rv qv pv dv hlim
  · rw [(detect_shape _ r rv qv pv dv).1]
    rw [monthly_sum_q _ _ _ 0 (fun b => by simp)]
    rw [monthly_sum_q _ _ _ qv (fun b => by simp)]
    ring
  · rw [(detect_shape _ r rv qv pv dv).2.2.1]
    rw [pair_sum_q _ _ _ qv (fun b => by simp)]
  · rw [(detect_shape _ r rv qv pv dv).2.2.2.2.1]

/-- Accumulated over a chunk of cleaned records, both quantity totals grow
by exactly the records' total quantity. -/
theorem processChunk_toAgg_sums (cs : List CleanedRecord) :
    ∀ s : AggState, 0 < s.anomaly_limit →
    monthlyQtySum (processChunk s (cs.map CleanedRecord.toAgg))
      = monthlyQtySum s + ((cs.map (fun c => (c.quantity : ℚ))).sum) ∧
    regionQtySum (processChunk s (cs.map CleanedRecord.toAgg))
      = regionQtySum s + ((cs.map (fun c => (c.quantity : ℚ))).sum) ∧
    (processChunk s (cs.map CleanedRecord.toAgg)).anomaly_limit = s.anomaly_limit := by
  induction cs with
  | nil =>
    intro s _
    simp [processChunk]
  | cons c cs ih =>
    intro s hlim
    obtain ⟨hok, hmq, hrq, hal⟩ := processSingleRecord_wf_sums s c.toAgg
      c.revenue ((c.quantity : ℚ)) c.unit_price c.discount_percent
      c.sale_date.year c.sale_date.month c.sale_date.day c.sale_date.hour
      c.sale_date.minute c.sale_date.second rfl rfl rfl rfl rfl hlim
    simp only [List.map_cons, processChunk, List.foldl_cons]
    rw [hok]
    simp only [if_true]
    have hlim2 : 0 < ({(processSingleRecord s c.toAgg).1 with records_processed :=
        (processSingleRecord s c.toAgg).1.records_processed + 1} : AggState).anomaly_limit := by
      show 0 < (processSingleRecord s c.toAgg).1.anomaly_limit
      rw [hal]
      exact hlim
    obtain ⟨m2, r2, l2⟩ := ih {(processSingleRecord s c.toAgg).1 with records_processed :=
        (processSingleRecord s c.toAgg).1.records_processed + 1} hlim2
    simp only [processChunk] at m2 r2 l2
    refine ⟨?_, ?_, ?_⟩
    · rw [m2]
      have : monthlyQtySum {(processSingleRecord s c.toAgg).1 with records_processed :=
          (processSingleRecord s c.toAgg).1.records_processed + 1}
          = monthlyQtySum (processSingleRecord s c.toAgg).1 := rfl
      rw [this, hmq, List.sum_cons]
      ring
    · rw [r2]
      have : regionQtySum {(processSingleRecord s c.toAgg).1 with records_processed :=
          (processSingleRecord s c.toAgg).1.records_processed + 1}
          = regionQtySum (processSingleRecord s c.toAgg).1 := rfl
      rw [this, hrq, List.sum_cons]
      ring
    · rw [l2]
      exact hal

/-- C8: for every finalized run (with a positive anomaly limit, as
configured), the quantity total over the monthly buckets and the quantity
total over the region buckets both equal the total quantity of all cleaned
records ingested. -/
theorem quantity_conservation_c8 (rows : List RawRecord) (a t : ℤ) (n : ℕ)
    (ha : 0 < a) :
    (((finalizeAggregations (pipelineProcess a t n rows)).monthly_sales.map
        (fun p => p.2.quantity)).sum
      = ((rows.filterMap cleanRecord).map (fun c => (c.quantity : ℚ))).sum) ∧
    (((finalizeAggregations (pipelineProcess a t n rows)).region_sales.map
        (fun p => p.2.quantity)).sum
      = ((rows.filterMap cleanRecord).map (fun c => (c.quantity : ℚ))).sum) := by
  have hclean : cleanChunk rows = (rows.filterMap cleanRecord).map CleanedRecord.toAgg := by
    rw [cleanChunk, List.map_filterMap]
  have hrun := pipelineProcess_eq_single_pass a t n rows
  obtain ⟨hm, hr, _⟩ := processChunk_toAgg_sums (rows.filterMap cleanRecord)
    (initAggState a t) (by exact ha)
  constructor
  · have : ((finalizeAggregations (pipelineProcess a t n rows)).monthly_sales.map
        (fun p => p.2.quantity)).sum = monthlyQtySum (pipelineProcess a t n rows) := by
      simp only [finalizeAggregations, monthlyQtySum, List.map_map]
      rfl
    rw [this, hrun, hclean, hm]
    simp [monthlyQtySum, initAggState]
  · have : ((finalizeAggregations (pipelineProcess a t n rows)).region_sales.map
        (fun p => p.2.quantity)).sum = regionQtySum (pipelineProcess a t n rows) := rfl
    rw [this, hrun, hclean, hr]
    simp [regionQtySum, initAggState]

/-- C8 witness: quantity conservation on a concrete input. -/
theorem quantity_conservation_c8_witness :
    (((finalizeAggregations (pipelineProcess 5 10 2 sampleRows)).monthly_sales.map
        (fun p => p.2.quantity)).sum
      = ((sampleRows.filterMap cleanRecord).map (fun c => (c.quantity : ℚ))).sum) ∧
    (((finalizeAggregations (pipelineProcess 5 10 2 sampleRows)).region_sales.map
        (fun p => p.2.quantity)).sum
      = ((sampleRows.filterMap cleanRecord).map (fun c => (c.quantity : ℚ))).sum) :=
  quantity_conservation_c8 sampleRows 5 10 2 (by decide)

/-! ## C2: bounded retained state -/

/-- `_update_statistics` keeps every sample at or below 1000 entries. -/
theorem updateStatistics_values (s : AggState) (a b c : PyVal)
    (h1 : s.revenue_stats.values.length ≤ 1000)
    (h2 : s.quantity_stats.values.length ≤ 1000)
    (h3 : s.price_stats.values.length ≤ 1000) :
    (updateStatistics s a b c).1.revenue_stats.values.length ≤ 1000 ∧
    (updateStatistics s a b c).1.quantity_stats.values.length ≤ 1000 ∧
    (updateStatistics s a b c).1.price_stats.values.length ≤ 1000 := by
  cases ha : a.asNum <;> cases hb : b.asNum <;> cases hc : c.asNum <;>
    simp [updateStatistics, ha, hb, hc] <;>
    refine ⟨?_, ?_, ?_⟩ <;>
    first
      | exact h1
      | exact h2
      | exact h3
      | exact updateStat_values_le _ _ h1
      | exact updateStat_values_le _ _ h2
      | exact updateStat_values_le _ _ h3

/-- The key list of a `defaultdict` write: unchanged for an existing key,
the new key appended otherwise. -/
theorem setBucket_map_fst {κ β : Type} [DecidableEq κ] (m : List (κ × β)) (k : κ)
    (b : β) :
    (setBucket m k b).map Prod.fst =
      (if k ∈ m.map Prod.fst then m.map Prod.fst else m.map Prod.fst ++ [k]) := by
  induction m with
  | nil => simp [setBucket]
  | cons hd rest ih =>
    obtain ⟨k1, b1⟩ := hd
    by_cases hk : k1 = k
    · subst hk
      simp [setBucket]
    · simp only [setBucket, if_neg hk, List.map_cons, ih, List.mem_cons]
      by_cases hmem : k ∈ rest.map Prod.fst
      · simp [hmem, Ne.symm hk]
      · simp [hmem, Ne.symm hk]

/-- A `defaultdict` write preserves distinctness of the keys. -/
theorem bucketUpdate_nodup {κ β : Type} [DecidableEq κ] (m : List (κ × β)) (k : κ)
    (dflt : β) (f : β → β) (h : (m.map Prod.fst).Nodup) :
    ((bucketUpdate m k dflt f).map Prod.fst).Nodup := by
  rw [bucketUpdate, setBucket_map_fst]
  split
  · exact h
  · rename_i hmem
    simp [List.nodup_append, h, hmem]

/-- A `defaultdict` write adds at most the written key to the key list. -/
theorem bucketUpdate_subset {κ β : Type} [DecidableEq κ] (m : List (κ × β)) (k : κ)
    (dflt : β) (f : β → β) :
    ((bucketUpdate m k dflt f).map Prod.fst) ⊆ (m.map Prod.fst) ++ [k] := by
  rw [bucketUpdate, setBucket_map_fst]
  split
  · exact List.subset_append_left _ _
  · exact fun a ha => ha

/-- One record step keeps all bucket key lists duplicate-free, adds at
most the record's own keys to them, and keeps the samples capped. -/
theorem processSingleRecord_size_inv (s : AggState) (r : AggRecord)
    (hm : (s.monthly_sales.map Prod.fst).Nodup)
    (hpn : (s.product_sales.map Prod.fst).Nodup)
    (hrn : (s.region_sales.map Prod.fst).Nodup)
    (hcn : (s.category_discounts.map Prod.fst).Nodup)
    (hv1 : s.revenue_stats.values.length ≤ 1000)
    (hv2 : s.quantity_stats.values.length ≤ 1000)
    (hv3 : s.price_stats.values.length ≤ 1000) :
    (((processSingleRecord s r).1.monthly_sales.map Prod.fst).Nodup ∧
      ((processSingleRecord s r).1.product_sales.map Prod.fst).Nodup ∧
      ((processSingleRecord s r).1.region_sales.map Prod.fst).Nodup ∧
      ((processSingleRecord s r).1.category_discounts.map Prod.fst).Nodup) ∧
    (((processSingleRecord s r).1.monthly_sales.map Prod.fst)
        ⊆ (s.monthly_sales.map Prod.fst) ++ (recMonthKey r).toList ∧
      ((processSingleRecord s r).1.product_sales.map Prod.fst)
        ⊆ (s.product_sales.map Prod.fst) ++ [recProductKey r] ∧
      ((processSingleRecord s r).1.region_sales.map Prod.fst)
        ⊆ (s.region_sales.map Prod.fst) ++ [recRegionKey r] ∧
      ((processSingleRecord s r).1.category_discounts.map Prod.fst)
        ⊆ (s.category_discounts.map Prod.fst) ++ [recCategoryKey r]) ∧
    ((processSingleRecord s r).1.revenue_stats.values.length ≤ 1000 ∧
      (processSingleRecord s r).1.quantity_stats.values.length ≤ 1000 ∧
      (processSingleRecord s r).1.price_stats.values.length ≤ 1000) := by
  obtain ⟨e1, e2, e3, e4, e5, e6, e7, e8⟩ :=
    updateStatistics_shape s (getField r.revenue) (getField r.quantity)
      (getField r.unit_price)
  obtain ⟨w1, w2, w3⟩ :=
    updateStatistics_values s (getField r.revenue) (getField r.quantity)
      (getField r.unit_price) hv1 hv2 hv3
  unfold processSingleRecord
  dsimp only
  split
  · exact ⟨⟨hm, hpn, hrn, hcn⟩,
      ⟨List.subset_append_left _ _, List.subset_append_left _ _,
        List.subset_append_left _ _, List.subset_append_left _ _⟩, hv1, hv2, hv3⟩
  · split
    · exact ⟨⟨by rw [e1]; exact hm, by rw [e2]; exact hpn, by rw [e3]; exact hrn,
        by rw [e4]; exact hcn⟩,
        ⟨by rw [e1]; exact List.subset_append_left _ _,
          by rw [e2]; exact List.subset_append_left _ _,
          by rw [e3]; exact List.subset_append_left _ _,
          by rw [e4]; exact List.subset_append_left _ _⟩, w1, w2, w3⟩
    · split
      · split
        · split
          · -- non-numeric discount: only the monthly bucket was touched
            rename_i hdate xdisc hdisc
            dsimp only
            refine ⟨⟨?_, by rw [e2]; exact hpn, by rw [e3]; exact hrn,
                by rw [e4]; exact hcn⟩,
              ⟨?_, by rw [e2]; exact List.subset_append_left _ _,
                by rw [e3]; exact List.subset_append_left _ _,
                by rw [e4]; exact List.subset_append_left _ _⟩, w1, w2, w3⟩
            · exact bucketUpdate_nodup _ _ _ _ (by rw [e1]; exact hm)
            · simp only [recMonthKey, hdate]
              intro x hx
              have h2 := bucketUpdate_subset _ _ _ _ hx
              rw [e1] at h2
              exact h2
          · -- full update followed by anomaly detection
            rename_i hdate xdisc dv hdisc
            obtain ⟨d1, d2, d3, d4, _, _, _, d8, d9, d10⟩ := detect_shape _ r _ _ _ dv
            refine ⟨⟨?_, ?_, ?_, ?_⟩, ⟨?_, ?_, ?_, ?_⟩, ?_, ?_, ?_⟩
            · rw [d1]
              dsimp only
              exact bucketUpdate_nodup _ _ _ _
                (bucketUpdate_nodup _ _ _ _ (by rw [e1]; exact hm))
            · rw [d2]
              dsimp only
              exact bucketUpdate_nodup _ _ _ _ (by rw [e2]; exact hpn)
            · rw [d3]
              dsimp only
              exact bucketUpdate_nodup _ _ _ _ (by rw [e3]; exact hrn)
            · rw [d4]
              dsimp only
              exact bucketUpdate_nodup _ _ _ _ (by rw [e4]; exact hcn)
            · rw [d1]
              dsimp only
              simp only [recMonthKey, hdate]
              intro x hx
              have h2 := bucketUpdate_subset _ _ _ _ hx
              rcases List.mem_append.mp h2 with h3 | h3
              · have h4 := bucketUpdate_subset _ _ _ _ h3
                rw [e1] at h4
                exact h4
              · exact List.mem_append_right _ h3
            · rw [d2]
              dsimp only
              intro x hx
              have h2 := bucketUpdate_subset _ _ _ _ hx
              rw [e2] at h2
              exact h2
            · rw [d3]
              dsimp only
              intro x hx
              have h2 := bucketUpdate_subset _ _ _ _ hx
              rw [e3] at h2
              exact h2
            · rw [d4]
              dsimp only
              intro x hx
              have h2 := bucketUpdate_subset _ _ _ _ hx
              rw [e4] at h2
              exact h2
            · rw [d8]
              exact w1
            · rw [d9]
              exact w2
            · rw [d10]
              exact w3
        · exact ⟨⟨by rw [e1]; exact hm, by rw [e2]; exact hpn, by rw [e3]; exact hrn,
            by rw [e4]; exact hcn⟩,
            ⟨by rw [e1]; exact List.subset_append_left _ _,
              by rw [e2]; exact List.subset_append_left _ _,
              by rw [e3]; exact List.subset_append_left _ _,
              by rw [e4]; exact List.subset_append_left _ _⟩, w1, w2, w3⟩
      · exact ⟨⟨by rw [e1]; exact hm, by rw [e2]; exact hpn, by rw [e3]; exact hrn,
          by rw [e4]; exact hcn⟩,
          ⟨by rw [e1]; exact List.subset_append_left _ _,
            by rw [e2]; exact List.subset_append_left _ _,
            by rw [e3]; exact List.subset_append_left _ _,
            by rw [e4]; exact List.subset_append_left _ _⟩, w1, w2, w3⟩

/-- `filterMap` over a cons, with the head's contribution as a list. -/
theorem filterMap_cons_toList {α β : Type} (f : α → Option β) (a : α) (l : List α) :
    (a :: l).filterMap f = (f a).toList ++ l.filterMap f := by
  cases h : f a <;> simp [List.filterMap_cons, h]

/-- Over a whole chunk, the bucket key lists stay duplicate-free, grow
only by keys contributed by the chunk's records, and the samples stay
capped. -/
theorem processChunk_size_inv (recs : List AggRecord) :
    ∀ s : AggState,
    (s.monthly_sales.map Prod.fst).Nodup →
    (s.product_sales.map Prod.fst).Nodup →
    (s.region_sales.map Prod.fst).Nodup →
    (s.category_discounts.map Prod.fst).Nodup →
    s.revenue_stats.values.length ≤ 1000 →
    s.quantity_stats.values.length ≤ 1000 →
    s.price_stats.values.length ≤ 1000 →
    (((processChunk s recs).monthly_sales.map Prod.fst).Nodup ∧
      ((processChunk s recs).product_sales.map Prod.fst).Nodup ∧
      ((processChunk s recs).region_sales.map Prod.fst).Nodup ∧
      ((processChunk s recs).category_discounts.map Prod.fst).Nodup) ∧
    (((processChunk s recs).monthly_sales.map Prod.fst)
        ⊆ (s.monthly_sales.map Prod.fst) ++ recs.filterMap recMonthKey ∧
      ((processChunk s recs).product_sales.map Prod.fst)
        ⊆ (s.product_sales.map Prod.fst) ++ recs.map recProductKey ∧
      ((processChunk s recs).region_sales.map Prod.fst)
        ⊆ (s.region_sales.map Prod.fst) ++ recs.map recRegionKey ∧
      ((processChunk s recs).category_discounts.map Prod.fst)
        ⊆ (s.category_discounts.map Prod.fst) ++ recs.map recCategoryKey) ∧
    ((processChunk s recs).revenue_stats.values.length ≤ 1000 ∧
      (processChunk s recs).quantity_stats.values.length ≤ 1000 ∧
      (processChunk s recs).price_stats.values.length ≤ 1000) := by
  induction recs with
  | nil =>
    intro s h1 h2 h3 h4 h5 h6 h7
    exact ⟨⟨h1, h2, h3, h4⟩,
      ⟨List.subset_append_left _ _, List.subset_append_left _ _,
        List.subset_append_left _ _, List.subset_append_left _ _⟩, h5, h6, h7⟩
  | cons r rs ih =>
    intro s h1 h2 h3 h4 h5 h6 h7
    obtain ⟨⟨p1, p2, p3, p4⟩, ⟨q1, q2, q3, q4⟩, v1, v2, v3⟩ :=
      processSingleRecord_size_inv s r h1 h2 h3 h4 h5 h6 h7
    simp only [processChunk, List.foldl_cons]
    by_cases hok : (processSingleRecord s r).2 = true
    · rw [hok]
      simp only [if_true]
      obtain ⟨⟨m1, m2, m3, m4⟩, ⟨n1, n2, n3, n4⟩, u1, u2, u3⟩ :=
        ih {(processSingleRecord s r).1 with records_processed :=
          (processSingleRecord s r).1.records_processed + 1}
          p1 p2 p3 p4 v1 v2 v3
      simp only [processChunk] at m1 m2 m3 m4 n1 n2 n3 n4 u1 u2 u3
      refine ⟨⟨m1, m2, m3, m4⟩, ⟨?_, ?_, ?_, ?_⟩, u1, u2, u3⟩
      · rw [filterMap_cons_toList]
        intro a ha
        have hb := n1 ha
        simp only [List.mem_append] at hb ⊢
        rcases hb with hb | hb
        · have hc := q1 hb
          simp only [List.mem_append] at hc
          tauto
        · tauto
      · rw [List.map_cons]
        intro a ha
        have hb := n2 ha
        simp only [List.mem_append, List.mem_cons, List.mem_singleton] at hb ⊢
        rcases hb with hb | hb
        · have hc := q2 hb
          simp only [List.mem_append, List.mem_singleton] at hc
          tauto
        · tauto
      · rw [List.map_cons]
        intro a ha
        have hb := n3 ha
        simp only [List.mem_append, List.mem_cons, List.mem_singleton] at hb ⊢
        rcases hb with hb | hb
        · have hc := q3 hb
          simp only [List.mem_append, List.mem_singleton] at hc
          tauto
        · tauto
      · rw [List.map_cons]
        intro a ha
        have hb := n4 ha
        simp only [List.mem_append, List.mem_cons, List.mem_singleton] at hb ⊢
        rcases hb with hb | hb
        · have hc := q4 hb
          simp only [List.mem_append, List.mem_singleton] at hc
          tauto
        · tauto
    · rw [if_neg hok]
      obtain ⟨⟨m1, m2, m3, m4⟩, ⟨n1, n2, n3, n4⟩, u1, u2, u3⟩ :=
        ih (processSingleRecord s r).1 p1 p2 p3 p4 v1 v2 v3
      simp only [processChunk] at m1 m2 m3 m4 n1 n2 n3 n4 u1 u2 u3
      refine ⟨⟨m1, m2, m3, m4⟩, ⟨?_, ?_, ?_, ?_⟩, u1, u2, u3⟩
      · rw [filterMap_cons_toList]
        intro a ha
        have hb := n1 ha
        simp only [List.mem_append] at hb ⊢
        rcases hb with hb | hb
        · have hc := q1 hb
          simp only [List.mem_append] at hc
          tauto
        · tauto
      · rw [List.map_cons]
        intro a ha
        have hb := n2 ha
        simp only [List.mem_append, List.mem_cons, List.mem_singleton] at hb ⊢
        rcases hb with hb | hb
        · have hc := q2 hb
          simp only [List.mem_append, List.mem_singleton] at hc
          tauto
        · tauto
      · rw [List.map_cons]
        intro a ha
        have hb := n3 ha
        simp only [List.mem_append, List.mem_cons, List.mem_singleton] at hb ⊢
        rcases hb with hb | hb
        · have hc := q3 hb
          simp only [List.mem_append, List.mem_singleton] at hc
          tauto
        · tauto
      · rw [List.map_cons]
        intro a ha
        have hb := n4 ha
        simp only [List.mem_append, List.mem_cons, List.mem_singleton] at hb ⊢
        rcases hb with hb | hb
        · have hc := q4 hb
          simp only [List.mem_append, List.mem_singleton] at hc
          tauto
        · tauto

/-- A duplicate-free list contained in another list is no longer than the
other's deduplication. -/
theorem length_le_dedup {α : Type} [DecidableEq α] (l l2 : List α) (hn : l.Nodup)
    (hs : l ⊆ l2) : l.length ≤ l2.dedup.length := by
  have h1 : l.toFinset.card = l.length := List.toFinset_card_of_nodup hn
  have h2 : l.toFinset ⊆ l2.toFinset := by
    intro a ha
    rw [List.mem_toFinset] at *
    exact hs ha
  have h3 : l2.toFinset.card = l2.dedup.length := List.card_toFinset l2
  calc l.length = l.toFinset.card := h1.symm
    _ ≤ l2.toFinset.card := Finset.card_le_card h2
    _ = l2.dedup.length := h3

/-- The chunk loop never changes the configured limits. -/
theorem processChunk_limits (recs : List AggRecord) :
    ∀ s : AggState, (processChunk s recs).top_products_limit = s.top_products_limit ∧
      (processChunk s recs).anomaly_limit = s.anomaly_limit := by
  induction recs with
  | nil => exact fun s => ⟨rfl, rfl⟩
  | cons r rs ih =>
    intro s
    obtain ⟨la, lt⟩ := processSingleRecord_limits s r
    simp only [processChunk, List.foldl_cons] at *
    split
    · have := ih {(processSingleRecord s r).1 with records_processed :=
        (processSingleRecord s r).1.records_processed + 1}
      exact ⟨by rw [this.1]; exact lt, by rw [this.2]; exact la⟩
    · have := ih (processSingleRecord s r).1
      exact ⟨by rw [this.1]; exact lt, by rw [this.2]; exact la⟩

/-- C2: after ingesting any input with positive configured limits, the
number of retained container elements is bounded by the number of distinct
monthly / product / region / category keys of the cleaned input plus
`anomalyLimit` plus the three 1000-capped samples — independent of the
number of ingested rows — and the finalized top-products and anomaly lists
are capped by `topProductsLimit` and `anomalyLimit`. -/
theorem memory_bound_c2 (rows : List RawRecord) (a t : ℤ) (n : ℕ)
    (ha : 0 < a) (ht : 0 < t) :
    stateSize (pipelineProcess a t n rows)
      ≤ ((cleanChunk rows).filterMap recMonthKey).dedup.length
        + ((cleanChunk rows).map recProductKey).dedup.length
        + ((cleanChunk rows).map recRegionKey).dedup.length
        + ((cleanChunk rows).map recCategoryKey).dedup.length
        + a.toNat + 3000 ∧
    (finalizeAggregations (pipelineProcess a t n rows)).top_products.length ≤ t.toNat ∧
    (finalizeAggregations (pipelineProcess a t n rows)).anomaly_records.length
      ≤ a.toNat := by
  have hrun := pipelineProcess_eq_single_pass a t n rows
  obtain ⟨⟨m1, m2, m3, m4⟩, ⟨n1, n2, n3, n4⟩, u1, u2, u3⟩ :=
    processChunk_size_inv (cleanChunk rows) (initAggState a t)
      (by simp [initAggState]) (by simp [initAggState]) (by simp [initAggState])
      (by simp [initAggState]) (by simp [initAggState]) (by simp [initAggState])
      (by simp [initAggState])
  obtain ⟨k1, k2, k3⟩ := processChunk_anomaly_invariant (cleanChunk rows)
    (initAggState a t) (by simp [initAggState]) (by simp [initAggState])
  have hb1 := length_le_dedup _ _ m1 (by simpa [initAggState] using n1)
  have hb2 := length_le_dedup _ _ m2 (by simpa [initAggState] using n2)
  have hb3 := length_le_dedup _ _ m3 (by simpa [initAggState] using n3)
  have hb4 := length_le_dedup _ _ m4 (by simpa [initAggState] using n4)
  rw [List.length_map] at hb1 hb2 hb3 hb4
  rw [k3] at k1
  have hka : (initAggState a t).anomaly_limit = a := rfl
  rw [hka] at k1
  have htop : (pipelineProcess a t n rows).top_products_limit = t := by
    rw [hrun]
    exact (processChunk_limits (cleanChunk rows) (initAggState a t)).1
  refine ⟨?_, ?_, ?_⟩
  · rw [hrun]
    simp only [stateSize]
    omega
  · simp only [finalizeAggregations, pySliceTo, htop, if_pos (le_of_lt ht)]
    exact List.length_take_le _ _
  · simp only [finalizeAggregations]
    rw [hrun]
    exact k1

/-- C2 witness: the bound at a concrete input. -/
theorem memory_bound_c2_witness :
    stateSize (pipelineProcess 5 10 2 sampleRows)
      ≤ ((cleanChunk sampleRows).filterMap recMonthKey).dedup.length
        + ((cleanChunk sampleRows).map recProductKey).dedup.length
        + ((cleanChunk sampleRows).map recRegionKey).dedup.length
        + ((cleanChunk sampleRows).map recCategoryKey).dedup.length
        + (5 : ℤ).toNat + 3000 ∧
    (finalizeAggregations (pipelineProcess 5 10 2 sampleRows)).top_products.length
      ≤ (10 : ℤ).toNat ∧
    (finalizeAggregations (pipelineProcess 5 10 2 sampleRows)).anomaly_records.length
      ≤ (5 : ℤ).toNat :=
  memory_bound_c2 sampleRows 5 10 2 (by decide) (by decide)
